import Mathlib

/-
Verification of the LilyPond lexer grammar of frescobaldi_app/ly/lex/lilypond.py.

The grammar catalogue (token kinds with their recognition patterns and
transition actions, parser contexts with their ordered candidate lists,
defaults, argument counters and fallthrough behaviour) is translated from
the source file.  The context engine itself (the push-down stack of parser
contexts, the matching loop, and the enter/replace/leave/endArgument stack
operations) is not part of the source tree; it is modelled from the
specification of the Context Engine, as indicated on each such definition.
-/

namespace LyLex

/-- ASCII uppercase letter test, used by the character classes of the
recognition patterns. -/
def isAsciiUpper (c : Char) : Bool := 65 ≤ c.toNat && c.toNat ≤ 90

/-- ASCII lowercase letter test. -/
def isAsciiLower (c : Char) : Bool := 97 ≤ c.toNat && c.toNat ≤ 122

/-- ASCII letter test, the class A-Za-z of the patterns. -/
def isAsciiAlpha (c : Char) : Bool := isAsciiUpper c || isAsciiLower c

/-- ASCII digit test, the class 0-9 of the patterns. -/
def isAsciiDigit (c : Char) : Bool := 48 ≤ c.toNat && c.toNat ≤ 57

/-- Word character for the word-boundary assertions of the patterns:
letters, digits and the underscore. -/
def isWordChar (c : Char) : Bool := isAsciiAlpha c || isAsciiDigit c || c == '_'

/-- Whitespace character, the class matched by the whitespace patterns. -/
def isSpaceChar (c : Char) : Bool :=
  c == ' ' || c == '\t' || c == '\n' || c == '\r' || c == '\x0b' || c == '\x0c'

/-- The Lexicon Provider interface: the closed vocabularies consumed by the
dynamically built recognition patterns.  The word lists themselves are an
external collaborator of the lexer, so they are parameters of the
development.  Words are lists of characters. -/
structure Lexicon where
  lilypond_keywords : List (List Char)
  lilypond_music_commands : List (List Char)
  articulations : List (List Char)
  ornaments : List (List Char)
  fermatas : List (List Char)
  instrument_scripts : List (List Char)
  repeat_scripts : List (List Char)
  ancient_scripts : List (List Char)
  repeat_types : List (List Char)
  clefs_plain : List (List Char)
  contexts : List (List Char)
  grobs : List (List Char)
  context_properties : List (List Char)
  papervariables : List (List Char)
  headervariables : List (List Char)
  layoutvariables : List (List Char)
  markupcommands_nargs0 : List (List Char)
  markupcommands_nargs1 : List (List Char)
  markupcommands_nargs2 : List (List Char)
  markupcommands_nargs3 : List (List Char)
  markupcommands_nargs4 : List (List Char)
deriving DecidableEq

/-- A lexicon with empty word lists, used to instantiate traces whose
tokens do not depend on any vocabulary. -/
def emptyLexicon : Lexicon :=
  ⟨[], [], [], [], [], [], [], [], [], [], [], [], [], [], [], [], [], [], [], [], []⟩

/-- A small lexicon populated with sample markup command arities: the word
a has arity zero, b arity two, c arity three and d arity four. -/
def sampleLexicon : Lexicon :=
  ⟨[], [], [], [], [], [], [], [], [], [], [], [], [], [], [], [],
   [['a']], [], [['b']], [['c']], [['d']]⟩

/-- The chained articulation word lists, exactly the chain built by the
pattern of the Articulation token class. -/
def Lexicon.articulationWords (lex : Lexicon) : List (List Char) :=
  lex.articulations ++ lex.ornaments ++ lex.fermatas ++
    lex.instrument_scripts ++ lex.repeat_scripts ++ lex.ancient_scripts

/-- The markup command arity vocabularies indexed 0 to 4, mirroring the
tuple markupcommands_nargs of the word-list provider. -/
def Lexicon.markupNargs (lex : Lexicon) : Nat → List (List Char)
  | 0 => lex.markupcommands_nargs0
  | 1 => lex.markupcommands_nargs1
  | 2 => lex.markupcommands_nargs2
  | 3 => lex.markupcommands_nargs3
  | 4 => lex.markupcommands_nargs4
  | _ => []

/-- Match a literal character sequence at the head of the input, returning
the number of characters consumed. -/
def matchLit : List Char → List Char → Option Nat
  | [], _ => some 0
  | l :: ls, c :: cs => if c == l then (matchLit ls cs).map (· + 1) else none
  | _ :: _, [] => none

/-- Length of the maximal run of characters satisfying a predicate. -/
def takeWhileCount (p : Char → Bool) : List Char → Nat
  | [] => 0
  | c :: cs => if p c then takeWhileCount p cs + 1 else 0

/-- The negative lookahead for a letter: succeeds at end of input or when
the next character is not an ASCII letter. -/
def noAlphaAfter : List Char → Bool
  | [] => true
  | c :: _ => !isAsciiAlpha c

/-- The trailing word-boundary assertion: the previous character of the
match is a word character, so the next one must not be. -/
def noWordAfter : List Char → Bool
  | [] => true
  | c :: _ => !isWordChar c

/-- The negative lookahead for a digit. -/
def noDigitAfter : List Char → Bool
  | [] => true
  | c :: _ => !isAsciiDigit c

/-- A leading word-boundary assertion between the previously consumed
character and the current position. -/
def isBoundary (prev : Option Char) (cs : List Char) : Bool :=
  let a := match prev with | some c => isWordChar c | none => false
  let b := match cs with | c :: _ => isWordChar c | [] => false
  a != b

/-- An alternation of literal words sharing a trailing guard.  The
alternatives are tried in declared order; an alternative whose literal
matches but whose guard fails is abandoned in favour of the next one,
exactly like backtracking over a regular-expression alternation followed
by a zero-width assertion. -/
def matchWordAlt (guard : List Char → Bool) : List (List Char) → List Char → Option Nat
  | [], _ => none
  | w :: ws, cs =>
    match matchLit w cs with
    | some n => if guard (List.drop n cs) then some n else matchWordAlt guard ws cs
    | none => matchWordAlt guard ws cs

/-- A backslash followed by an alternation of vocabulary words with a
trailing guard, the shape of the dynamically built command patterns. -/
def matchBackslashVocab (guard : List Char → Bool) (ws : List (List Char)) :
    List Char → Option Nat
  | '\\' :: rest => (matchWordAlt guard ws rest).map (· + 1)
  | _ => none

/-- A leading word boundary, then an alternation of vocabulary words with a
trailing guard, the shape of the dynamically built name patterns. -/
def matchBoundedVocab (guard : List Char → Bool) (ws : List (List Char))
    (prev : Option Char) (cs : List Char) : Option Nat :=
  if isBoundary prev cs then matchWordAlt guard ws cs else none

/-- The token taxonomy: one constructor per token class of the grammar
catalogue (plus Unparsed, the base default kind of the engine). -/
inductive TokenKind where
  | Unparsed
  | Space
  | Error
  | Comment
  | BlockCommentStart
  | BlockCommentEnd
  | BlockCommentSpace
  | LineComment
  | String
  | StringQuotedStart
  | StringQuotedEnd
  | StringQuoteEscape
  | Skip
  | Rest
  | Note
  | DurationStart
  | Dot
  | Scaling
  | OpenBracket
  | CloseBracket
  | OpenSimultaneous
  | CloseSimultaneous
  | SequentialStart
  | SequentialEnd
  | SimultaneousStart
  | SimultaneousEnd
  | Articulation
  | Direction
  | ScriptAbbreviation
  | SlurStart
  | SlurEnd
  | PhrasingSlurStart
  | PhrasingSlurEnd
  | Tie
  | BeamStart
  | BeamEnd
  | LigatureStart
  | LigatureEnd
  | Keyword
  | VoiceSeparator
  | Dynamic
  | Command
  | Score
  | Book
  | BookPart
  | Paper
  | Header
  | Layout
  | Midi
  | With
  | LayoutContext
  | Markup
  | MarkupLines
  | MarkupCommand
  | MarkupScore
  | MarkupWord
  | OpenBracketMarkup
  | CloseBracketMarkup
  | Repeat
  | RepeatSpecifier
  | RepeatStringSpecifier
  | RepeatCount
  | Override
  | Set
  | Revert
  | DotSetOverride
  | Unset
  | New
  | Context
  | Clef
  | ClefSpecifier
  | Unit
  | LyricMode
  | LyricText
  | LyricHyphen
  | LyricExtender
  | LyricSkip
  | LyricTie
  | NoteMode
  | ChordMode
  | DrumMode
  | FigureMode
  | UserCommand
  | SchemeStart
  | ContextName
  | BackSlashedContextName
  | GrobName
  | ContextProperty
  | PaperVariable
  | HeaderVariable
  | LayoutVariable
  | ChordStart
  | ChordEnd
  | ErrorInChord
  | Name
  | EqualSign
  | EqualSignSetOverride
  | Fraction
  | DecimalValue
deriving DecidableEq, Fintype, Repr

/-- The error capability: token kinds derived from the error base class. -/
def isErrorKind : TokenKind → Bool
  | .Error => true
  | .ErrorInChord => true
  | _ => false

/-- The kinds that are subclasses of OpenBracket in the taxonomy, the set
consulted by the isinstance tests of the parser transition hooks. -/
def isOpenBracketKind : TokenKind → Bool
  | .OpenBracket => true
  | .SequentialStart => true
  | .OpenBracketMarkup => true
  | _ => false

/-- The kinds that are subclasses of OpenSimultaneous in the taxonomy. -/
def isOpenSimultaneousKind : TokenKind → Bool
  | .OpenSimultaneous => true
  | .SimultaneousStart => true
  | _ => false

/-- The duration start pattern: a backslash word maxima, longa or breve
with a trailing word boundary, or one of the power-of-two literals not
followed by a digit. -/
def matchDurationRx (cs : List Char) : Option Nat :=
  match cs with
  | '\\' :: rest =>
    (matchWordAlt noWordAfter [['m','a','x','i','m','a'], ['l','o','n','g','a'],
      ['b','r','e','v','e']] rest).map (· + 1)
  | _ =>
    matchWordAlt noDigitAfter
      [['1'], ['2'], ['4'], ['8'], ['1','6'], ['3','2'], ['6','4'],
       ['1','2','8'], ['2','5','6'], ['5','1','2'], ['1','0','2','4'],
       ['2','0','4','8']] cs

/-- The duration scaling pattern: a star, optional tabs and spaces, digits,
and an optional slash-digits part. -/
def matchScalingRx (cs : List Char) : Option Nat :=
  match cs with
  | '*' :: rest =>
    let w := takeWhileCount (fun c => c == '\t' || c == ' ') rest
    let rest1 := List.drop w rest
    let d := takeWhileCount isAsciiDigit rest1
    if d == 0 then none
    else
      let rest2 := List.drop d rest1
      match rest2 with
      | '/' :: rest3 =>
        let d2 := takeWhileCount isAsciiDigit rest3
        if d2 == 0 then some (1 + w + d) else some (1 + w + d + 1 + d2)
      | _ => some (1 + w + d)
  | _ => none

/-- The dynamic pattern: a backslash followed by a run of one to five f or
p letters with a word boundary, one of the literal dynamic words with a
word boundary, or one of the characters lt, bang, gt. -/
def matchDynamicRx (cs : List Char) : Option Nat :=
  match cs with
  | '\\' :: rest =>
    let f := takeWhileCount (fun c => c == 'f') rest
    if 1 ≤ f && f ≤ 5 && noWordAfter (List.drop f rest) then some (f + 1)
    else
      let p := takeWhileCount (fun c => c == 'p') rest
      if 1 ≤ p && p ≤ 5 && noWordAfter (List.drop p rest) then some (p + 1)
      else
        match matchWordAlt noWordAfter
          [['m','f'], ['m','p'], ['f','p'], ['s','p','p'], ['s','p'],
           ['s','f','f'], ['s','f'], ['s','f','z'], ['r','f','z']] rest with
        | some n => some (n + 1)
        | none =>
          match rest with
          | c :: _ => if c == '<' || c == '!' || c == '>' then some 2 else none
          | [] => none
  | _ => none

/-- The tail of the markup command pattern: repeated groups of a hyphen
followed by a nonempty letter run. -/
def markupCmdTail (cs : List Char) : Nat :=
  match cs with
  | '-' :: r =>
    let m := takeWhileCount isAsciiAlpha r
    if h : 0 < m then 1 + m + markupCmdTail (List.drop m r) else 0
  | _ => 0
termination_by cs.length
decreasing_by
  simp only [List.length_cons, List.length_drop]
  omega

/-- A literal with a trailing zero-width guard. -/
def matchLitG (w : List Char) (guard : List Char → Bool) (cs : List Char) : Option Nat :=
  match matchLit w cs with
  | some n => if guard (List.drop n cs) then some n else none
  | none => none

/-- The error pattern inside chords: an articulation shorthand, a double
angle bracket pair, or a backslashed slur, beam or ligature delimiter. -/
def matchErrorInChordRx (cs : List Char) : Option Nat :=
  match cs with
  | c1 :: c2 :: _ =>
    if (c1 == '-' || c1 == '_' || c1 == '^') &&
       (c2 == '_' || c2 == '.' || c2 == '>' || c2 == '|' || c2 == '+' ||
        c2 == '^' || c2 == '-') then some 2
    else if c1 == '<' && c2 == '<' then some 2
    else if c1 == '>' && c2 == '>' then some 2
    else if c1 == '\\' && (c2 == '\\' || c2 == ']' || c2 == '[' ||
        c2 == '(' || c2 == ')') then some 2
    else none
  | _ => none

/-- The recognition pattern of every token kind, anchored at the cursor:
given the lexicon, the previously consumed character (for leading word
boundaries) and the remaining input, return the length of the match.
Each arm is the translation of the rx attribute of the corresponding
token class; kinds without a pattern of their own (pure default kinds)
never match as candidates. -/
def kindMatch (lex : Lexicon) (prev : Option Char) :
    TokenKind → List Char → Option Nat
  | .Unparsed, _ => none
  | .Space, cs =>
    let n := takeWhileCount isSpaceChar cs
    if n == 0 then none else some n
  | .Error, _ => none
  | .Comment, _ => none
  | .BlockCommentStart, cs => matchLit ['%', '{'] cs
  | .BlockCommentEnd, cs => matchLit ['%', '}'] cs
  | .BlockCommentSpace, cs =>
    let n := takeWhileCount isSpaceChar cs
    if n == 0 then none else some n
  | .LineComment, cs =>
    match cs with
    | '%' :: r => some (1 + takeWhileCount (fun c => c != '\n') r)
    | _ => none
  | .String, _ => none
  | .StringQuotedStart, cs => matchLit ['"'] cs
  | .StringQuotedEnd, cs => matchLit ['"'] cs
  | .StringQuoteEscape, cs =>
    match cs with
    | '\\' :: c :: _ => if c == '\\' || c == '"' then some 2 else none
    | _ => none
  | .Skip, cs => matchWordAlt noAlphaAfter [['\\','s','k','i','p'], ['s']] cs
  | .Rest, cs =>
    match cs with
    | c :: r => if (c == 'R' || c == 'r') && noAlphaAfter r then some 1 else none
    | [] => none
  | .Note, cs =>
    let n := takeWhileCount isAsciiLower cs
    if n == 0 then none
    else if noAlphaAfter (List.drop n cs) then some n else none
  | .DurationStart, cs => matchDurationRx cs
  | .Dot, cs => matchLit ['.'] cs
  | .Scaling, cs => matchScalingRx cs
  | .OpenBracket, cs => matchLit ['{'] cs
  | .CloseBracket, cs => matchLit ['}'] cs
  | .OpenSimultaneous, cs => matchLit ['<', '<'] cs
  | .CloseSimultaneous, cs => matchLit ['>', '>'] cs
  | .SequentialStart, cs => matchLit ['{'] cs
  | .SequentialEnd, cs => matchLit ['}'] cs
  | .SimultaneousStart, cs => matchLit ['<', '<'] cs
  | .SimultaneousEnd, cs => matchLit ['>', '>'] cs
  | .Articulation, cs => matchBackslashVocab noAlphaAfter lex.articulationWords cs
  | .Direction, cs =>
    match cs with
    | c :: _ => if c == '-' || c == '_' || c == '^' then some 1 else none
    | [] => none
  | .ScriptAbbreviation, cs =>
    match cs with
    | c :: _ =>
      if c == '+' || c == '|' || c == '>' || c == '.' || c == '_' ||
         c == '^' || c == '-' then some 1 else none
    | [] => none
  | .SlurStart, cs => matchLit ['('] cs
  | .SlurEnd, cs => matchLit [')'] cs
  | .PhrasingSlurStart, cs => matchLit ['\\', '('] cs
  | .PhrasingSlurEnd, cs => matchLit ['\\', ')'] cs
  | .Tie, cs => matchLit ['~'] cs
  | .BeamStart, cs => matchLit ['['] cs
  | .BeamEnd, cs => matchLit [']'] cs
  | .LigatureStart, cs => matchLit ['\\', '['] cs
  | .LigatureEnd, cs => matchLit ['\\', ']'] cs
  | .Keyword, cs => matchBackslashVocab noAlphaAfter lex.lilypond_keywords cs
  | .VoiceSeparator, cs => matchLit ['\\', '\\'] cs
  | .Dynamic, cs => matchDynamicRx cs
  | .Command, cs => matchBackslashVocab noAlphaAfter lex.lilypond_music_commands cs
  | .Score, cs => matchLitG ['\\','s','c','o','r','e'] noWordAfter cs
  | .Book, cs => matchLitG ['\\','b','o','o','k'] noWordAfter cs
  | .BookPart, cs => matchLitG ['\\','b','o','o','k','p','a','r','t'] noWordAfter cs
  | .Paper, cs => matchLitG ['\\','p','a','p','e','r'] noWordAfter cs
  | .Header, cs => matchLitG ['\\','h','e','a','d','e','r'] noWordAfter cs
  | .Layout, cs => matchLitG ['\\','l','a','y','o','u','t'] noWordAfter cs
  | .Midi, cs => matchLitG ['\\','m','i','d','i'] noWordAfter cs
  | .With, cs => matchLitG ['\\','w','i','t','h'] noWordAfter cs
  | .LayoutContext, cs => matchLitG ['\\','c','o','n','t','e','x','t'] noWordAfter cs
  | .Markup, cs => matchLitG ['\\','m','a','r','k','u','p'] noAlphaAfter cs
  | .MarkupLines, cs =>
    matchLitG ['\\','m','a','r','k','u','p','l','i','n','e','s'] noAlphaAfter cs
  | .MarkupCommand, cs =>
    match cs with
    | '\\' :: r =>
      let n := takeWhileCount isAsciiAlpha r
      if n == 0 then none else some (1 + n + markupCmdTail (List.drop n r))
    | _ => none
  | .MarkupScore, cs => matchLitG ['\\','s','c','o','r','e'] noWordAfter cs
  | .MarkupWord, cs =>
    let n := takeWhileCount (fun c =>
      !(c == '{' || c == '}' || c == '"' || c == '\\' || c == '#' ||
        c == '%' || isSpaceChar c)) cs
    if n == 0 then none else some n
  | .OpenBracketMarkup, cs => matchLit ['{'] cs
  | .CloseBracketMarkup, cs => matchLit ['}'] cs
  | .Repeat, cs => matchLitG ['\\','r','e','p','e','a','t'] noAlphaAfter cs
  | .RepeatSpecifier, cs => matchBoundedVocab noAlphaAfter lex.repeat_types prev cs
  | .RepeatStringSpecifier, cs =>
    match cs with
    | '"' :: r =>
      match matchWordAlt (fun l => match l with | '"' :: _ => true | _ => false)
          lex.repeat_types r with
      | some n => some (n + 2)
      | none => none
    | _ => none
  | .RepeatCount, cs =>
    let n := takeWhileCount isAsciiDigit cs
    if n == 0 then none else some n
  | .Override, cs => matchLitG ['\\','o','v','e','r','r','i','d','e'] noWordAfter cs
  | .Set, cs => matchLitG ['\\','s','e','t'] noWordAfter cs
  | .Revert, cs => matchLitG ['\\','r','e','v','e','r','t'] noWordAfter cs
  | .DotSetOverride, cs => matchLit ['.'] cs
  | .Unset, cs => matchLitG ['\\','u','n','s','e','t'] noWordAfter cs
  | .New, cs => matchLitG ['\\','n','e','w'] noWordAfter cs
  | .Context, cs => matchLitG ['\\','c','o','n','t','e','x','t'] noWordAfter cs
  | .Clef, cs => matchLit ['\\','c','l','e','f'] cs
  | .ClefSpecifier, cs => matchBoundedVocab noWordAfter lex.clefs_plain prev cs
  | .Unit, cs =>
    matchBackslashVocab noWordAfter [['m','m'], ['c','m'], ['i','n'], ['p','t']] cs
  | .LyricMode, cs =>
    matchBackslashVocab noWordAfter
      [['l','y','r','i','c','m','o','d','e'],
       ['o','l','d','a','d','d','l','y','r','i','c','s'],
       ['a','d','d','l','y','r','i','c','s'],
       ['l','y','r','i','c','s'],
       ['l','y','r','i','c','s','t','o']] cs
  | .LyricText, cs =>
    let n := takeWhileCount (fun c =>
      !(c == '\\' || isSpaceChar c || isAsciiDigit c || c == '~' || c == '"')) cs
    if n == 0 then none else some n
  | .LyricHyphen, cs => matchLit ['-', '-'] cs
  | .LyricExtender, cs => matchLit ['_', '_'] cs
  | .LyricSkip, cs => matchLit ['_'] cs
  | .LyricTie, cs => matchLit ['~'] cs
  | .NoteMode, cs =>
    matchBackslashVocab noWordAfter
      [['n','o','t','e','s'], ['n','o','t','e','m','o','d','e']] cs
  | .ChordMode, cs =>
    matchBackslashVocab noWordAfter
      [['c','h','o','r','d','s'], ['c','h','o','r','d','m','o','d','e']] cs
  | .DrumMode, cs =>
    matchBackslashVocab noWordAfter
      [['d','r','u','m','s'], ['d','r','u','m','m','o','d','e']] cs
  | .FigureMode, cs =>
    matchBackslashVocab noWordAfter
      [['f','i','g','u','r','e','s'], ['f','i','g','u','r','e','m','o','d','e']] cs
  | .UserCommand, cs =>
    match cs with
    | '\\' :: r =>
      let n := takeWhileCount isAsciiAlpha r
      if n == 0 then none else some (1 + n)
    | _ => none
  | .SchemeStart, cs =>
    match cs with
    | c :: _ => if c == '#' || c == '$' then some 1 else none
    | [] => none
  | .ContextName, cs => matchBoundedVocab noWordAfter lex.contexts prev cs
  | .BackSlashedContextName, cs => matchBackslashVocab noWordAfter lex.contexts cs
  | .GrobName, cs => matchBoundedVocab noWordAfter lex.grobs prev cs
  | .ContextProperty, cs => matchBoundedVocab noWordAfter lex.context_properties prev cs
  | .PaperVariable, cs => matchBoundedVocab noWordAfter lex.papervariables prev cs
  | .HeaderVariable, cs => matchBoundedVocab noWordAfter lex.headervariables prev cs
  | .LayoutVariable, cs => matchBoundedVocab noWordAfter lex.layoutvariables prev cs
  | .ChordStart, cs => matchLit ['<'] cs
  | .ChordEnd, cs => matchLit ['>'] cs
  | .ErrorInChord, cs => matchErrorInChordRx cs
  | .Name, cs =>
    let n := takeWhileCount isAsciiAlpha cs
    if n == 0 then none else some n
  | .EqualSign, cs => matchLit ['='] cs
  | .EqualSignSetOverride, cs => matchLit ['='] cs
  | .Fraction, cs =>
    let d1 := takeWhileCount isAsciiDigit cs
    if d1 == 0 then none
    else
      match List.drop d1 cs with
      | '/' :: r =>
        let d2 := takeWhileCount isAsciiDigit r
        if d2 == 0 then none else some (d1 + 1 + d2)
      | _ => none
  | .DecimalValue, cs =>
    let (m, cs1) := match cs with
      | '-' :: r => (1, r)
      | _ => (0, cs)
    let d := takeWhileCount isAsciiDigit cs1
    if d == 0 then none
    else
      match List.drop d cs1 with
      | '.' :: r =>
        let e := takeWhileCount isAsciiDigit r
        if e == 0 then some (m + d) else some (m + d + 1 + e)
      | _ => some (m + d)

/-- The grammar catalogue: one identifier per concrete parser context class.
SchemeParser stands for the external nested expression sub-lexer, pushed
as an opaque context. -/
inductive ParserId where
  | LilyPondParserGlobal
  | LilyPondParserExpectScore
  | LilyPondParserScore
  | LilyPondParserExpectBook
  | LilyPondParserBook
  | LilyPondParserExpectBookPart
  | LilyPondParserBookPart
  | LilyPondParserExpectPaper
  | LilyPondParserPaper
  | LilyPondParserExpectHeader
  | LilyPondParserHeader
  | LilyPondParserExpectLayout
  | LilyPondParserLayout
  | LilyPondParserExpectMidi
  | LilyPondParserMidi
  | LilyPondParserExpectWith
  | LilyPondParserWith
  | LilyPondParserExpectContext
  | LilyPondParserContext
  | LilyPondParserMusic
  | LilyPondParserChord
  | StringParser
  | BlockCommentParser
  | MarkupParser
  | RepeatParser
  | DurationParser
  | DurationScalingParser
  | LilyPondParserOverride
  | LilyPondParserRevert
  | LilyPondParserSet
  | LilyPondParserUnset
  | LilyPondParserNewContext
  | LilyPondParserClef
  | ScriptAbbreviationParser
  | LilyPondParserExpectLyricMode
  | LilyPondParserLyricMode
  | LilyPondParserExpectChordMode
  | LilyPondParserChordMode
  | LilyPondParserExpectNoteMode
  | LilyPondParserNoteMode
  | LilyPondParserExpectDrumMode
  | LilyPondParserDrumMode
  | LilyPondParserExpectFigureMode
  | LilyPondParserFigureMode
  | SchemeParser
deriving DecidableEq, Fintype, Repr

/-- A context frame on the push-down stack: a parser identifier together
with its live pending-argument counter. -/
structure Ctx where
  pid : ParserId
  argcount : Nat
deriving DecidableEq, Repr

/-- Modelled from the spec: the primitive transition actions a token kind
or parser hook may request of the context engine: enter (push), leave
(pop), replace (pop then push), end of argument (walk the argument
counters), and the direct assignment of the top argument counter used by
the set and override equal sign. -/
inductive Action where
  | enter (p : ParserId) (argc : Option Nat)
  | leave
  | endArg
  | replaceP (p : ParserId)
  | setArgcount (n : Nat)
deriving DecidableEq, Repr

/-- The class-level argument counter each parser context starts with when
pushed without an explicit count. -/
def parserArgcount : ParserId → Nat
  | .LilyPondParserClef => 1
  | .ScriptAbbreviationParser => 1
  | _ => 0

-- basic stuff that can appear everywhere
/-- space_items of the source: whitespace and comment starters. -/
def spaceItems : List TokenKind :=
  [.Space, .BlockCommentStart, .LineComment]

/-- base_items of the source. -/
def baseItems : List TokenKind :=
  spaceItems ++ [.SchemeStart, .StringQuotedStart]

/-- command_items of the source: commands of both toplevel and music mode. -/
def commandItems : List TokenKind :=
  [.Repeat, .Override, .Revert, .Set, .Unset, .New, .Context, .With, .Clef,
   .ChordMode, .DrumMode, .FigureMode, .LyricMode, .NoteMode,
   .Markup, .MarkupLines, .Keyword, .Command, .UserCommand]

/-- toplevel_base_items of the source. -/
def toplevelBaseItems : List TokenKind :=
  baseItems ++ [.Fraction, .SequentialStart, .SimultaneousStart] ++ commandItems

/-- music_items of the source. -/
def musicItems : List TokenKind :=
  baseItems ++
  [.Dynamic, .Skip, .Rest, .Note, .Fraction, .DurationStart, .VoiceSeparator,
   .SequentialStart, .SequentialEnd, .SimultaneousStart, .SimultaneousEnd,
   .ChordStart, .ContextName, .GrobName, .SlurStart, .SlurEnd,
   .PhrasingSlurStart, .PhrasingSlurEnd, .Tie, .BeamStart, .BeamEnd,
   .LigatureStart, .LigatureEnd, .Direction, .Articulation] ++ commandItems

/-- music_chord_items of the source: the items inside chords. -/
def musicChordItems : List TokenKind :=
  [.ErrorInChord, .ChordEnd] ++ musicItems

/-- The ordered candidate list of every parser context, translated from the
items attribute of each parser class.  The opaque SchemeParser exposes no
candidates here. -/
def parserItems : ParserId → List TokenKind
  | .LilyPondParserGlobal =>
    [.Book, .BookPart, .Score, .Markup, .MarkupLines, .Paper, .Header, .Layout] ++
    toplevelBaseItems ++ [.Name, .EqualSign]
  | .LilyPondParserExpectScore => spaceItems ++ [.OpenBracket]
  | .LilyPondParserScore =>
    [.CloseBracket, .Header, .Layout, .Midi, .With] ++ toplevelBaseItems
  | .LilyPondParserExpectBook => spaceItems ++ [.OpenBracket]
  | .LilyPondParserBook =>
    [.CloseBracket, .Markup, .MarkupLines, .BookPart, .Score, .Paper, .Header,
     .Layout] ++ toplevelBaseItems
  | .LilyPondParserExpectBookPart => spaceItems ++ [.OpenBracket]
  | .LilyPondParserBookPart =>
    [.CloseBracket, .Markup, .MarkupLines, .Score, .Paper, .Header, .Layout] ++
    toplevelBaseItems
  | .LilyPondParserExpectPaper => spaceItems ++ [.OpenBracket]
  | .LilyPondParserPaper =>
    baseItems ++ [.CloseBracket, .Markup, .MarkupLines, .PaperVariable,
      .EqualSign, .DecimalValue, .Unit]
  | .LilyPondParserExpectHeader => spaceItems ++ [.OpenBracket]
  | .LilyPondParserHeader =>
    [.CloseBracket, .Markup, .MarkupLines, .HeaderVariable, .EqualSign] ++
    toplevelBaseItems
  | .LilyPondParserExpectLayout => spaceItems ++ [.OpenBracket]
  | .LilyPondParserLayout =>
    baseItems ++ [.CloseBracket, .LayoutContext, .LayoutVariable, .EqualSign,
      .DecimalValue, .Unit]
  | .LilyPondParserExpectMidi => spaceItems ++ [.OpenBracket]
  | .LilyPondParserMidi =>
    baseItems ++ [.CloseBracket, .LayoutContext, .LayoutVariable, .EqualSign,
      .DecimalValue, .Unit]
  | .LilyPondParserExpectWith => spaceItems ++ [.OpenBracket]
  | .LilyPondParserWith =>
    [.CloseBracket, .ContextProperty, .EqualSign] ++ toplevelBaseItems
  | .LilyPondParserExpectContext => spaceItems ++ [.OpenBracket]
  | .LilyPondParserContext =>
    [.CloseBracket, .BackSlashedContextName, .ContextProperty, .EqualSign] ++
    toplevelBaseItems
  | .LilyPondParserMusic => musicItems
  | .LilyPondParserChord => musicChordItems
  | .StringParser => [.StringQuotedEnd, .StringQuoteEscape]
  | .BlockCommentParser => [.BlockCommentSpace, .BlockCommentEnd]
  | .MarkupParser =>
    [.MarkupScore, .MarkupCommand, .OpenBracketMarkup, .CloseBracketMarkup,
     .MarkupWord] ++ baseItems
  | .RepeatParser =>
    spaceItems ++ [.RepeatSpecifier, .RepeatStringSpecifier, .RepeatCount]
  | .DurationParser => spaceItems ++ [.Dot]
  | .DurationScalingParser => spaceItems ++ [.Scaling]
  | .LilyPondParserOverride =>
    [.ContextName, .DotSetOverride, .GrobName, .EqualSignSetOverride, .Name,
     .Markup, .MarkupLines] ++ baseItems
  | .LilyPondParserRevert =>
    spaceItems ++ [.ContextName, .DotSetOverride, .GrobName, .Name, .SchemeStart]
  | .LilyPondParserSet =>
    [.ContextName, .DotSetOverride, .ContextProperty, .EqualSignSetOverride,
     .Name, .Markup, .MarkupLines] ++ baseItems
  | .LilyPondParserUnset =>
    spaceItems ++ [.ContextName, .DotSetOverride, .ContextProperty, .Name]
  | .LilyPondParserNewContext =>
    spaceItems ++ [.ContextName, .Name, .EqualSign, .StringQuotedStart]
  | .LilyPondParserClef => spaceItems ++ [.ClefSpecifier, .StringQuotedStart]
  | .ScriptAbbreviationParser => spaceItems ++ [.ScriptAbbreviation]
  | .LilyPondParserExpectLyricMode =>
    spaceItems ++ [.OpenBracket, .OpenSimultaneous, .SchemeStart,
      .StringQuotedStart, .Name]
  | .LilyPondParserLyricMode =>
    baseItems ++ [.CloseBracket, .CloseSimultaneous, .OpenBracket,
      .OpenSimultaneous, .LyricHyphen, .LyricExtender, .LyricSkip, .LyricTie,
      .LyricText, .Dynamic, .Skip, .DurationStart, .Markup, .MarkupLines] ++
    commandItems
  | .LilyPondParserExpectChordMode => spaceItems ++ [.OpenBracket, .OpenSimultaneous]
  | .LilyPondParserChordMode => musicItems
  | .LilyPondParserExpectNoteMode => spaceItems ++ [.OpenBracket, .OpenSimultaneous]
  | .LilyPondParserNoteMode => musicItems
  | .LilyPondParserExpectDrumMode => spaceItems ++ [.OpenBracket, .OpenSimultaneous]
  | .LilyPondParserDrumMode => musicItems
  | .LilyPondParserExpectFigureMode => spaceItems ++ [.OpenBracket, .OpenSimultaneous]
  | .LilyPondParserFigureMode => musicItems
  | .SchemeParser => []

/-- The default kind of each parser context: the source sets Error on the
expect-open-bracket contexts, String on the string context and Comment on
the block comment context.  Modelled from the spec for the remaining
contexts: the base default is a plain unrecognized-run kind. -/
def parserDefault : ParserId → TokenKind
  | .LilyPondParserExpectScore => .Error
  | .LilyPondParserExpectBook => .Error
  | .LilyPondParserExpectBookPart => .Error
  | .LilyPondParserExpectPaper => .Error
  | .LilyPondParserExpectHeader => .Error
  | .LilyPondParserExpectLayout => .Error
  | .LilyPondParserExpectMidi => .Error
  | .LilyPondParserExpectWith => .Error
  | .LilyPondParserExpectContext => .Error
  | .StringParser => .String
  | .BlockCommentParser => .Comment
  | _ => .Unparsed

/-- The fallthrough flag of each parser context: exactly the subclasses of
the fallthrough parser base class. -/
def parserFallthrough : ParserId → Bool
  | .RepeatParser => true
  | .DurationParser => true
  | .DurationScalingParser => true
  | .LilyPondParserRevert => true
  | .LilyPondParserUnset => true
  | .LilyPondParserNewContext => true
  | .LilyPondParserClef => true
  | .ScriptAbbreviationParser => true
  | .LilyPondParserExpectLyricMode => true
  | .LilyPondParserExpectChordMode => true
  | .LilyPondParserExpectNoteMode => true
  | .LilyPondParserExpectDrumMode => true
  | .LilyPondParserExpectFigureMode => true
  | _ => false

/-- The markup command dispatch, translated from the updateState method of
the MarkupCommand token class: a zero-argument command ends the pending
argument; otherwise a markup context is pushed expecting 2, 3 or 4
arguments when the command is declared with that arity, and 1 otherwise. -/
def markupCommandAction (lex : Lexicon) (command : List Char) : List Action :=
  if command ∈ lex.markupcommands_nargs0 then [.endArg]
  else
    let argcount :=
      if command ∈ lex.markupcommands_nargs2 then 2
      else if command ∈ lex.markupcommands_nargs3 then 3
      else if command ∈ lex.markupcommands_nargs4 then 4
      else 1
    [.enter .MarkupParser (some argcount)]

/-- The transition action of every token kind whose action does not depend
on the matched text, translated from each updateState method (leaver kinds
pop; the others push the context named in their updateState).  Kinds
without an updateState request nothing. -/
def staticKindAction : TokenKind → List Action
  | .BlockCommentStart => [.enter .BlockCommentParser none]
  | .BlockCommentEnd => [.leave]
  | .StringQuotedStart => [.enter .StringParser none]
  | .StringQuotedEnd => [.leave, .endArg]
  | .DurationStart => [.enter .DurationParser none]
  | .CloseBracket => [.leave, .endArg]
  | .CloseSimultaneous => [.leave, .endArg]
  | .SequentialStart => [.enter .LilyPondParserMusic none]
  | .SequentialEnd => [.leave, .endArg]
  | .SimultaneousStart => [.enter .LilyPondParserMusic none]
  | .SimultaneousEnd => [.leave, .endArg]
  | .Direction => [.enter .ScriptAbbreviationParser none]
  | .ScriptAbbreviation => [.leave]
  | .Score => [.enter .LilyPondParserExpectScore none]
  | .Book => [.enter .LilyPondParserExpectBook none]
  | .BookPart => [.enter .LilyPondParserExpectBookPart none]
  | .Paper => [.enter .LilyPondParserExpectPaper none]
  | .Header => [.enter .LilyPondParserExpectHeader none]
  | .Layout => [.enter .LilyPondParserExpectLayout none]
  | .Midi => [.enter .LilyPondParserExpectMidi none]
  | .With => [.enter .LilyPondParserExpectWith none]
  | .LayoutContext => [.enter .LilyPondParserExpectContext none]
  | .Markup => [.enter .MarkupParser (some 1)]
  | .MarkupLines => [.enter .MarkupParser (some 1)]
  | .MarkupScore => [.enter .LilyPondParserExpectScore none]
  | .OpenBracketMarkup => [.enter .MarkupParser none]
  | .CloseBracketMarkup => [.endArg, .leave, .endArg]
  | .Repeat => [.enter .RepeatParser none]
  | .RepeatCount => [.leave]
  | .Override => [.enter .LilyPondParserOverride none]
  | .Set => [.enter .LilyPondParserSet none]
  | .Revert => [.enter .LilyPondParserRevert none]
  | .Unset => [.enter .LilyPondParserUnset none]
  | .New => [.enter .LilyPondParserNewContext none]
  | .Context => [.enter .LilyPondParserNewContext none]
  | .Clef => [.enter .LilyPondParserClef none]
  | .LyricMode => [.enter .LilyPondParserExpectLyricMode none]
  | .NoteMode => [.enter .LilyPondParserExpectNoteMode none]
  | .ChordMode => [.enter .LilyPondParserExpectChordMode none]
  | .DrumMode => [.enter .LilyPondParserExpectDrumMode none]
  | .FigureMode => [.enter .LilyPondParserExpectFigureMode none]
  | .SchemeStart => [.enter .SchemeParser (some 1)]
  | .ChordStart => [.enter .LilyPondParserChord none]
  | .ChordEnd => [.leave]
  | .EqualSignSetOverride => [.setArgcount 1]
  | _ => []

/-- The transition action of a token kind given its matched text: the
markup command dispatches on the command name (the text without its
backslash); every other kind acts independently of the text. -/
def tokenAction (lex : Lexicon) (k : TokenKind) (text : List Char) : List Action :=
  match k with
  | .MarkupCommand => markupCommandAction lex (List.drop 1 text)
  | _ => staticKindAction k

/-- The parser updateState hook, translated from the updateState methods of
the parser classes: each expect-open-bracket context replaces itself with
its body context when an open bracket kind was matched, and the input mode
expect contexts (and lyric mode itself) push their mode context when an
open bracket or open simultaneous kind was matched. -/
def parserHook (p : ParserId) (k : TokenKind) : List Action :=
  match p with
  | .LilyPondParserExpectScore =>
    if isOpenBracketKind k then [.replaceP .LilyPondParserScore] else []
  | .LilyPondParserExpectBook =>
    if isOpenBracketKind k then [.replaceP .LilyPondParserBook] else []
  | .LilyPondParserExpectBookPart =>
    if isOpenBracketKind k then [.replaceP .LilyPondParserBookPart] else []
  | .LilyPondParserExpectPaper =>
    if isOpenBracketKind k then [.replaceP .LilyPondParserPaper] else []
  | .LilyPondParserExpectHeader =>
    if isOpenBracketKind k then [.replaceP .LilyPondParserHeader] else []
  | .LilyPondParserExpectLayout =>
    if isOpenBracketKind k then [.replaceP .LilyPondParserLayout] else []
  | .LilyPondParserExpectMidi =>
    if isOpenBracketKind k then [.replaceP .LilyPondParserMidi] else []
  | .LilyPondParserExpectWith =>
    if isOpenBracketKind k then [.replaceP .LilyPondParserWith] else []
  | .LilyPondParserExpectContext =>
    if isOpenBracketKind k then [.replaceP .LilyPondParserContext] else []
  | .LilyPondParserExpectLyricMode =>
    if isOpenBracketKind k || isOpenSimultaneousKind k then
      [.enter .LilyPondParserLyricMode none] else []
  | .LilyPondParserLyricMode =>
    if isOpenSimultaneousKind k || isOpenBracketKind k then
      [.enter .LilyPondParserLyricMode none] else []
  | .LilyPondParserExpectChordMode =>
    if isOpenBracketKind k || isOpenSimultaneousKind k then
      [.enter .LilyPondParserChordMode none] else []
  | .LilyPondParserExpectNoteMode =>
    if isOpenBracketKind k || isOpenSimultaneousKind k then
      [.enter .LilyPondParserNoteMode none] else []
  | .LilyPondParserExpectDrumMode =>
    if isOpenBracketKind k || isOpenSimultaneousKind k then
      [.enter .LilyPondParserDrumMode none] else []
  | .LilyPondParserExpectFigureMode =>
    if isOpenBracketKind k || isOpenSimultaneousKind k then
      [.enter .LilyPondParserFigureMode none] else []
  | _ => []

/-- Modelled from the spec: the end-of-argument walk of the context engine.
Starting at the top of the stack, a context whose counter is exactly one
has completed its last pending argument: it is popped, and the popped
context itself counts as one argument of the context below, so the walk
continues there.  A counter above one is decremented and the walk stops; a
context without pending arguments stops the walk; the bottom context is
never popped.  This realises the argument countdown of the markup
scenario, where closing the last argument pops the markup contexts
entirely. -/
def endArgFn : List Ctx → List Ctx
  | [] => []
  | [x] => [x]
  | x :: y :: r =>
    if x.argcount == 1 then endArgFn (y :: r)
    else if 1 < x.argcount then ⟨x.pid, x.argcount - 1⟩ :: y :: r
    else x :: y :: r

/-- Modelled from the spec: the effect of one primitive transition action
on the context stack.  Enter pushes; leave pops unless only the bottom
context remains (the stack is never emptied while input remains); replace
pops then pushes; the counter assignment rewrites the top counter. -/
def applyAction : Action → List Ctx → List Ctx
  | .enter p argc, s => ⟨p, argc.getD (parserArgcount p)⟩ :: s
  | .leave, s =>
    match s with
    | _ :: y :: r => y :: r
    | other => other
  | .endArg, s => endArgFn s
  | .replaceP p, s =>
    match s with
    | _ :: r => ⟨p, parserArgcount p⟩ :: r
    | [] => [⟨p, parserArgcount p⟩]
  | .setArgcount n, s =>
    match s with
    | x :: r => ⟨x.pid, n⟩ :: r
    | [] => []

/-- Modelled from the spec: a sequence of transition actions applied in
order. -/
def applyActions (acts : List Action) (s : List Ctx) : List Ctx :=
  acts.foldl (fun st a => applyAction a st) s

/-- The fallthrough behaviour of a context whose candidates all failed:
the duration context replaces itself with the duration scaling context
(its own fallthrough method); every other fallthrough context pops itself,
the base behaviour modelled from the spec. -/
def fallAction (p : ParserId) (s : List Ctx) : List Ctx :=
  match p with
  | .DurationParser => applyAction (.replaceP .DurationScalingParser) s
  | _ => applyAction .leave s

/-- Modelled from the spec: walk the candidate kinds of a context in
declared order and return the first kind whose pattern matches at the
cursor, together with the length of the match. -/
def tryItems (lex : Lexicon) (prev : Option Char) :
    List TokenKind → List Char → Option (TokenKind × Nat)
  | [], _ => none
  | k :: ks, cs =>
    match kindMatch lex prev k cs with
    | some n => some (k, n)
    | none => tryItems lex prev ks cs

/-- Modelled from the spec: attempt a match of the candidates of a parser
context at the cursor. -/
def findMatch (lex : Lexicon) (prev : Option Char) (p : ParserId)
    (cs : List Char) : Option (TokenKind × Nat) :=
  tryItems lex prev (parserItems p) cs

/-- Modelled from the spec: the length of the run consumed by a default
token, with c the character at the cursor: characters are consumed until a
candidate of the context matches or the input ends, and at least one
character is consumed. -/
def defaultRun (lex : Lexicon) (p : ParserId) (c : Char) (cs : List Char) : Nat :=
  match cs with
  | [] => 1
  | c2 :: cs2 =>
    match findMatch lex (some c) p (c2 :: cs2) with
    | some _ => 1
    | none => 1 + defaultRun lex p c2 cs2

/-- The character preceding the next cursor position after consuming some
text. -/
def lastCharOf (prev : Option Char) (text : List Char) : Option Char :=
  match text.getLast? with
  | some c => some c
  | none => prev

/-- The outcome of one iteration of the matching loop: a token is emitted
with the updated stack and remaining input, or a fallthrough context acts
without consuming input, or tokenizing is finished. -/
inductive StepResult where
  | emit (k : TokenKind) (text : List Char) (stack : List Ctx)
      (prev : Option Char) (rest : List Char)
  | fall (stack : List Ctx)
  | done
deriving DecidableEq, Repr

/-- Modelled from the spec: one iteration of the matching loop at the
cursor.  The top context attempts a match; on success the token is emitted
and its transition action runs, followed by the updateState hook of the
matching parser.  On failure a fallthrough context performs its
fallthrough action without consuming input; otherwise the loop finishes at
end of input, or emits a default token covering the unrecognized run. -/
def stepOnce (lex : Lexicon) (prev : Option Char) (stack : List Ctx)
    (cs : List Char) : StepResult :=
  match stack with
  | [] => .done
  | ctx :: _ =>
    match findMatch lex prev ctx.pid cs with
    | some (k, n) =>
      let text := List.take n cs
      let stack1 := applyActions (tokenAction lex k text) stack
      let stack2 := applyActions (parserHook ctx.pid k) stack1
      .emit k text stack2 (lastCharOf prev text) (List.drop n cs)
    | none =>
      if parserFallthrough ctx.pid then .fall (fallAction ctx.pid stack)
      else
        match cs with
        | [] => .done
        | c :: cs2 =>
          let n := defaultRun lex ctx.pid c cs2
          let k := parserDefault ctx.pid
          let text := List.take n cs
          let stack1 := applyActions (tokenAction lex k text) stack
          let stack2 := applyActions (parserHook ctx.pid k) stack1
          .emit k text stack2 (lastCharOf prev text) (List.drop n cs)

/-- Modelled from the spec: the matching loop, iterated under fuel (the
engine guarantees forward progress over well-formed grammar tables; the
fuel only serves totality).  Returns the emitted tokens and the final
context stack. -/
def tokenizeLoop (lex : Lexicon) :
    Nat → Option Char → List Ctx → List Char →
    List (TokenKind × List Char) × List Ctx
  | 0, _, stack, _ => ([], stack)
  | fuel + 1, prev, stack, cs =>
    match stepOnce lex prev stack cs with
    | .done => ([], stack)
    | .fall stack2 => tokenizeLoop lex fuel prev stack2 cs
    | .emit k text stack2 prev2 rest =>
      let r := tokenizeLoop lex fuel prev2 stack2 rest
      ((k, text) :: r.1, r.2)

/-- The initial stack: the toplevel context alone. -/
def initialStack : List Ctx := [⟨.LilyPondParserGlobal, 0⟩]

/-- Modelled from the spec: tokenize an input from the fresh toplevel
stack, returning the token sequence and the final stack checkpoint. -/
def tokenize (lex : Lexicon) (cs : List Char) :
    List (TokenKind × List Char) × List Ctx :=
  tokenizeLoop lex (3 * cs.length + 64) none initialStack cs

/-- The bottom-most context of a stack. -/
def lastCtx : List Ctx → Option Ctx
  | [] => none
  | [x] => some x
  | _ :: y :: r => lastCtx (y :: r)

/-- The stack invariant: the stack is nonempty (its bottom exists) and the
bottom-most context is the toplevel grammar with no pending arguments. -/
def stackOK (s : List Ctx) : Prop :=
  lastCtx s = some ⟨.LilyPondParserGlobal, 0⟩

instance (s : List Ctx) : Decidable (stackOK s) := by
  unfold stackOK; infer_instance

/-- The stack invariant holding of the outcome of a loop iteration. -/
def stepResultOK : StepResult → Prop
  | .emit _ _ s _ _ => stackOK s
  | .fall s => stackOK s
  | .done => True

/-- Actions that preserve the stack invariant on any stack: pushes, the
guarded pop and the end-of-argument walk. -/
def actionSafe : Action → Bool
  | .enter _ _ => true
  | .leave => true
  | .endArg => true
  | _ => false

/-- An action that only pushes. -/
def isPushAction : Action → Bool
  | .enter _ _ => true
  | _ => false

/-- An action that pushes or replaces the top, the only shapes occurring
in parser updateState hooks. -/
def isEnterOrReplace : Action → Bool
  | .enter _ _ => true
  | .replaceP _ => true
  | _ => false

/-- Well-formed word list of the lexicon provider: every word is nonempty
and consists of ASCII letters. -/
def wordsWF (ws : List (List Char)) : Prop :=
  ∀ w ∈ ws, w ≠ [] ∧ ∀ c ∈ w, isAsciiAlpha c = true

/-- The sanity assumption on the externally provided name vocabularies
consulted by the override, set and music contexts. -/
def Lexicon.SaneNames (lex : Lexicon) : Prop :=
  wordsWF lex.contexts ∧ wordsWF lex.grobs ∧ wordsWF lex.context_properties

instance (ws : List (List Char)) : Decidable (wordsWF ws) := by
  unfold wordsWF; infer_instance

instance (lex : Lexicon) : Decidable lex.SaneNames := by
  unfold Lexicon.SaneNames; infer_instance

/-- The word context as a character list. -/
def ctxWord : List Char := ['c','o','n','t','e','x','t']

/-- The input backslash markup brace quote x quote brace. -/
def inputMarkupX : List Char :=
  ['\\','m','a','r','k','u','p',' ','{',' ','"','x','"',' ','}']

/-- The input backslash score space double open angle. -/
def inputScoreSim : List Char := ['\\','s','c','o','r','e',' ','<','<']

/-- The input backslash set A equals quoted a. -/
def inputSetTrace : List Char := ['\\','s','e','t',' ','A',' ','=',' ','"','a','"']

/-- The input open brace c4 star 2, driving the lexer into the duration
contexts. -/
def inputDurTrace : List Char := ['{',' ','c','4','*','2']

/-- The expect-open-bracket contexts of the block keywords paired with
their body contexts. -/
def expectPairs : List (ParserId × ParserId) :=
  [(.LilyPondParserExpectScore, .LilyPondParserScore),
   (.LilyPondParserExpectBook, .LilyPondParserBook),
   (.LilyPondParserExpectBookPart, .LilyPondParserBookPart),
   (.LilyPondParserExpectPaper, .LilyPondParserPaper),
   (.LilyPondParserExpectHeader, .LilyPondParserHeader),
   (.LilyPondParserExpectLayout, .LilyPondParserLayout),
   (.LilyPondParserExpectMidi, .LilyPondParserMidi),
   (.LilyPondParserExpectWith, .LilyPondParserWith)]

/-- C1: on the input backslash markup, brace, quoted x, closing brace, the
Markup token pushes a markup context with argument count one, the open
bracket pushes a nested markup body context, the quoted string is lexed in
a string context whose end leaves the markup counter untouched, and the
closing bracket ends the pending argument and pops, so the final stack
equals the initial toplevel stack. -/
theorem claim1_markup_block_roundtrip (lex : Lexicon) :
    stepOnce lex none initialStack inputMarkupX =
      .emit .Markup ['\\','m','a','r','k','u','p']
        [⟨.MarkupParser, 1⟩, ⟨.LilyPondParserGlobal, 0⟩] (some 'p')
        [' ','{',' ','"','x','"',' ','}'] ∧
    stepOnce lex (some ' ') [⟨.MarkupParser, 1⟩, ⟨.LilyPondParserGlobal, 0⟩]
        ['{',' ','"','x','"',' ','}'] =
      .emit .OpenBracketMarkup ['{']
        [⟨.MarkupParser, 0⟩, ⟨.MarkupParser, 1⟩, ⟨.LilyPondParserGlobal, 0⟩]
        (some '{') [' ','"','x','"',' ','}'] ∧
    stepOnce lex (some 'x')
        [⟨.StringParser, 0⟩, ⟨.MarkupParser, 0⟩, ⟨.MarkupParser, 1⟩,
         ⟨.LilyPondParserGlobal, 0⟩] ['"',' ','}'] =
      .emit .StringQuotedEnd ['"']
        [⟨.MarkupParser, 0⟩, ⟨.MarkupParser, 1⟩, ⟨.LilyPondParserGlobal, 0⟩]
        (some '"') [' ','}'] ∧
    stepOnce lex (some ' ')
        [⟨.MarkupParser, 0⟩, ⟨.MarkupParser, 1⟩, ⟨.LilyPondParserGlobal, 0⟩]
        ['}'] =
      .emit .CloseBracketMarkup ['}'] initialStack (some '}') [] ∧
    tokenize lex inputMarkupX =
      ([(.Markup, ['\\','m','a','r','k','u','p']), (.Space, [' ']),
        (.OpenBracketMarkup, ['{']), (.Space, [' ']),
        (.StringQuotedStart, ['"']), (.String, ['x']),
        (.StringQuotedEnd, ['"']), (.Space, [' ']),
        (.CloseBracketMarkup, ['}'])], initialStack) :=
  ⟨rfl, rfl, rfl, rfl, rfl⟩

/-- Helper: a fallthrough context other than the duration context pops on
fallthrough. -/
theorem fallAction_of_ne_duration (p : ParserId) (hp : p ≠ .DurationParser)
    (s : List Ctx) : fallAction p s = applyAction .leave s := by
  cases p <;> first | rfl | exact absurd rfl hp

/-- C4 counterexample: with the duration context on top (reached from the
toplevel via open brace, note and duration start), a star at the cursor
matches none of its candidates; the claimed behaviour would pop the
context and re-attempt one level down, but the context instead replaces
itself with the duration scaling context at the same depth, where the
scaling pattern then matches, a kind the context one level down does not
even list. -/
theorem claim4_counterexample :
    stepOnce emptyLexicon (some '4')
        [⟨.DurationParser, 0⟩, ⟨.LilyPondParserMusic, 0⟩,
         ⟨.LilyPondParserGlobal, 0⟩] ['*','2'] =
      .fall [⟨.DurationScalingParser, 0⟩, ⟨.LilyPondParserMusic, 0⟩,
             ⟨.LilyPondParserGlobal, 0⟩] ∧
    [⟨.DurationScalingParser, 0⟩, ⟨.LilyPondParserMusic, 0⟩,
     ⟨.LilyPondParserGlobal, 0⟩] ≠
      ([⟨.LilyPondParserMusic, 0⟩, ⟨.LilyPondParserGlobal, 0⟩] : List Ctx) ∧
    stepOnce emptyLexicon (some '4')
        [⟨.DurationScalingParser, 0⟩, ⟨.LilyPondParserMusic, 0⟩,
         ⟨.LilyPondParserGlobal, 0⟩] ['*','2'] =
      .emit .Scaling ['*','2']
        [⟨.DurationScalingParser, 0⟩, ⟨.LilyPondParserMusic, 0⟩,
         ⟨.LilyPondParserGlobal, 0⟩] (some '2') [] ∧
    .Scaling ∉ parserItems .LilyPondParserMusic ∧
    tokenize emptyLexicon inputDurTrace =
      ([(.SequentialStart, ['{']), (.Space, [' ']), (.Note, ['c']),
        (.DurationStart, ['4']), (.Scaling, ['*','2'])],
       [⟨.LilyPondParserMusic, 0⟩, ⟨.LilyPondParserGlobal, 0⟩]) :=
  ⟨rfl, by decide, rfl, by decide, rfl⟩

/-- C4 (amended): when none of the candidates of a fallthrough context
match at the cursor, the context performs its declared fallthrough action
without consuming input: every fallthrough context pops itself and the
match is re-attempted one level down, except the duration context, which
replaces itself with the duration scaling context so the re-attempt
happens at the same depth. -/
theorem claim4_fallthrough_behaviour (lex : Lexicon) (prev : Option Char)
    (p : ParserId) (a : Nat) (x : Ctx) (s : List Ctx) (cs : List Char)
    (hf : parserFallthrough p = true)
    (hm : findMatch lex prev p cs = none) :
    stepOnce lex prev (⟨p, a⟩ :: x :: s) cs =
      .fall (if p = .DurationParser
             then ⟨.DurationScalingParser, 0⟩ :: x :: s
             else x :: s) := by
  unfold stepOnce
  simp only [hm, hf, if_true]
  by_cases hp : p = .DurationParser
  · subst hp
    rfl
  · rw [if_neg hp, fallAction_of_ne_duration p hp]
    rfl

/-- C4 witness: the amended behaviour at concrete inputs, for the duration
context (replace) and the repeat context (pop). -/
theorem claim4_fallthrough_behaviour_witness :
    stepOnce emptyLexicon (some '4')
        [⟨.DurationParser, 0⟩, ⟨.LilyPondParserGlobal, 0⟩] ['*'] =
      .fall [⟨.DurationScalingParser, 0⟩, ⟨.LilyPondParserGlobal, 0⟩] ∧
    stepOnce emptyLexicon (some '2')
        [⟨.RepeatParser, 0⟩, ⟨.LilyPondParserGlobal, 0⟩] ['*'] =
      .fall [⟨.LilyPondParserGlobal, 0⟩] := by
  constructor
  · exact claim4_fallthrough_behaviour emptyLexicon (some '4') .DurationParser 0
      ⟨.LilyPondParserGlobal, 0⟩ [] ['*'] rfl rfl
  · exact claim4_fallthrough_behaviour emptyLexicon (some '2') .RepeatParser 0
      ⟨.LilyPondParserGlobal, 0⟩ [] ['*'] rfl rfl

/-- C5 counterexample: after backslash score, the expect context does not
recognize a double open angle bracket; the token is emitted through the
Error default and the expect context stays on the stack instead of
replacing itself with the score body context, and the open simultaneous
kind is not among its candidates. -/
theorem claim5_counterexample :
    tokenize emptyLexicon inputScoreSim =
      ([(.Score, ['\\','s','c','o','r','e']), (.Space, [' ']),
        (.Error, ['<','<'])],
       [⟨.LilyPondParserExpectScore, 0⟩, ⟨.LilyPondParserGlobal, 0⟩]) ∧
    ([⟨.LilyPondParserExpectScore, 0⟩, ⟨.LilyPondParserGlobal, 0⟩] : List Ctx) ≠
      [⟨.LilyPondParserScore, 0⟩, ⟨.LilyPondParserGlobal, 0⟩] ∧
    .OpenSimultaneous ∉ parserItems .LilyPondParserExpectScore :=
  ⟨rfl, by decide, by decide⟩

/-- C5 (amended): every block-keyword expect context recognizes only
whitespace and comments while waiting besides the single open bracket, and
replaces itself with the corresponding body context upon matching the open
bracket only; a double open angle bracket is not recognized there and
falls to the Error default. -/
theorem claim5_expect_contexts :
    ∀ pr ∈ expectPairs,
      parserItems pr.1 = spaceItems ++ [.OpenBracket] ∧
      parserDefault pr.1 = .Error ∧
      ∀ (lex : Lexicon) (prev : Option Char) (a : Nat) (s : List Ctx)
        (cs : List Char),
        stepOnce lex prev (⟨pr.1, a⟩ :: s) ('{' :: cs) =
          .emit .OpenBracket ['{'] (⟨pr.2, 0⟩ :: s) (some '{') cs := by
  intro pr hpr
  fin_cases hpr <;> exact ⟨rfl, rfl, fun lex prev a s cs => rfl⟩

/-- C5 witness: the expect score context at a concrete open bracket
replaces itself with the score body context. -/
theorem claim5_expect_contexts_witness :
    stepOnce emptyLexicon (some ' ')
        [⟨.LilyPondParserExpectScore, 0⟩, ⟨.LilyPondParserGlobal, 0⟩] ['{'] =
      .emit .OpenBracket ['{']
        [⟨.LilyPondParserScore, 0⟩, ⟨.LilyPondParserGlobal, 0⟩]
        (some '{') [] :=
  (claim5_expect_contexts (.LilyPondParserExpectScore, .LilyPondParserScore)
    (by decide)).2.2 emptyLexicon (some ' ') 0 [⟨.LilyPondParserGlobal, 0⟩] []

/-- C6: in the string body context, a backslash followed by a backslash or
a double quote matches the escape kind as a single two-character token;
the string end pattern does not match at the position of the escape, so an
escaped quote never terminates the string body. -/
theorem claim6_string_escape (lex : Lexicon) (prev : Option Char) (a : Nat)
    (s : List Ctx) (cs : List Char) (c : Char)
    (hc : c = '\\' ∨ c = '"') :
    kindMatch lex prev .StringQuotedEnd ('\\' :: c :: cs) = none ∧
    findMatch lex prev .StringParser ('\\' :: c :: cs) =
      some (.StringQuoteEscape, 2) ∧
    stepOnce lex prev (⟨.StringParser, a⟩ :: s) ('\\' :: c :: cs) =
      .emit .StringQuoteEscape ['\\', c] (⟨.StringParser, a⟩ :: s)
        (some c) cs := by
  rcases hc with rfl | rfl <;> exact ⟨rfl, rfl, rfl⟩

/-- C6 witness: the escaped quote at a concrete input. -/
theorem claim6_string_escape_witness :
    stepOnce emptyLexicon (some 'a')
        [⟨.StringParser, 0⟩, ⟨.LilyPondParserGlobal, 0⟩] ['\\', '"', 'b'] =
      .emit .StringQuoteEscape ['\\', '"']
        [⟨.StringParser, 0⟩, ⟨.LilyPondParserGlobal, 0⟩] (some '"') ['b'] :=
  (claim6_string_escape emptyLexicon (some 'a') 0 [⟨.LilyPondParserGlobal, 0⟩]
    ['b'] '"' (Or.inr rfl)).2.2

/-- C8: inside a chord body, the error-catching kind is the first
candidate of the chord context, carries the error capability, and matches
each disallowed input as a single token emitted with the stack unchanged:
articulation shorthands, the double angle brackets, and backslashed slur,
beam and ligature delimiters. -/
theorem claim8_chord_error_tokens (lex : Lexicon) (prev : Option Char)
    (a : Nat) (s : List Ctx) (cs : List Char) (c1 c2 d : Char)
    (h1 : c1 = '-' ∨ c1 = '_' ∨ c1 = '^')
    (h2 : c2 = '_' ∨ c2 = '.' ∨ c2 = '>' ∨ c2 = '|' ∨ c2 = '+' ∨
          c2 = '^' ∨ c2 = '-')
    (hd : d = '(' ∨ d = ')' ∨ d = '[' ∨ d = ']' ∨ d = '\\') :
    (parserItems .LilyPondParserChord).head? = some .ErrorInChord ∧
    isErrorKind .ErrorInChord = true ∧
    stepOnce lex prev (⟨.LilyPondParserChord, a⟩ :: s) (c1 :: c2 :: cs) =
      .emit .ErrorInChord [c1, c2] (⟨.LilyPondParserChord, a⟩ :: s)
        (some c2) cs ∧
    stepOnce lex prev (⟨.LilyPondParserChord, a⟩ :: s) ('<' :: '<' :: cs) =
      .emit .ErrorInChord ['<', '<'] (⟨.LilyPondParserChord, a⟩ :: s)
        (some '<') cs ∧
    stepOnce lex prev (⟨.LilyPondParserChord, a⟩ :: s) ('>' :: '>' :: cs) =
      .emit .ErrorInChord ['>', '>'] (⟨.LilyPondParserChord, a⟩ :: s)
        (some '>') cs ∧
    stepOnce lex prev (⟨.LilyPondParserChord, a⟩ :: s) ('\\' :: d :: cs) =
      .emit .ErrorInChord ['\\', d] (⟨.LilyPondParserChord, a⟩ :: s)
        (some d) cs := by
  refine ⟨rfl, rfl, ?_, rfl, rfl, ?_⟩
  · rcases h1 with rfl | rfl | rfl <;>
      rcases h2 with rfl | rfl | rfl | rfl | rfl | rfl | rfl <;> rfl
  · rcases hd with rfl | rfl | rfl | rfl | rfl <;> rfl

/-- C8 witness: the chord error kind at concrete disallowed inputs. -/
theorem claim8_chord_error_tokens_witness :
    stepOnce emptyLexicon (some 'c')
        [⟨.LilyPondParserChord, 0⟩, ⟨.LilyPondParserGlobal, 0⟩] ['-', '.'] =
      .emit .ErrorInChord ['-', '.']
        [⟨.LilyPondParserChord, 0⟩, ⟨.LilyPondParserGlobal, 0⟩]
        (some '.') [] :=
  (claim8_chord_error_tokens emptyLexicon (some 'c') 0
    [⟨.LilyPondParserGlobal, 0⟩] [] '-' '.' '('
    (Or.inl rfl) (Or.inr (Or.inl rfl)) (Or.inl rfl)).2.2.1

/-- Helper: a stack satisfying the invariant is nonempty. -/
theorem stackOK_ne_nil {s : List Ctx} (h : stackOK s) : s ≠ [] := by
  intro he
  subst he
  exact Option.noConfusion h

/-- Helper: at depth one, the invariant pins the only context down to the
toplevel one. -/
theorem stackOK_singleton {x : Ctx} (h : stackOK [x]) :
    x = ⟨.LilyPondParserGlobal, 0⟩ := by
  have : some x = some ⟨ParserId.LilyPondParserGlobal, 0⟩ := h
  exact Option.some.inj this

/-- Helper: the first match returned by the ordered candidate walk is one
of the candidates. -/
theorem tryItems_mem (lex : Lexicon) (prev : Option Char) :
    ∀ (ks : List TokenKind) (cs : List Char) (k : TokenKind) (n : Nat),
      tryItems lex prev ks cs = some (k, n) → k ∈ ks := by
  intro ks
  induction ks with
  | nil => intro cs k n h; exact absurd h (by simp [tryItems])
  | cons k0 ks ih =>
    intro cs k n h
    unfold tryItems at h
    rcases hm : kindMatch lex prev k0 cs with _ | m
    · rw [hm] at h
      exact List.mem_cons_of_mem _ (ih cs k n h)
    · rw [hm] at h
      cases h
      exact List.mem_cons_self _ _

/-- Helper: the end-of-argument walk preserves the stack invariant. -/
theorem endArgFn_ok : ∀ (s : List Ctx), stackOK s → stackOK (endArgFn s)
  | [] => fun h => absurd rfl (stackOK_ne_nil h)
  | [x] => fun h => h
  | x :: y :: r => fun h => by
    have h2 : stackOK (y :: r) := h
    show stackOK (endArgFn (x :: y :: r))
    unfold endArgFn
    split
    · exact endArgFn_ok (y :: r) h2
    · split
      · exact h2
      · exact h

/-- Helper: safe actions (push, guarded pop, end of argument) preserve the
stack invariant on any stack. -/
theorem applyAction_safe_ok (a : Action) (s : List Ctx)
    (ha : actionSafe a = true) (h : stackOK s) :
    stackOK (applyAction a s) := by
  cases a with
  | enter p c =>
    cases s with
    | nil => exact absurd rfl (stackOK_ne_nil h)
    | cons x r => exact h
  | leave =>
    cases s with
    | nil => exact absurd rfl (stackOK_ne_nil h)
    | cons x r =>
      cases r with
      | nil => exact h
      | cons y t => exact h
  | endArg => exact endArgFn_ok s h
  | replaceP p => exact absurd ha (by simp [actionSafe])
  | setArgcount n => exact absurd ha (by simp [actionSafe])

/-- Helper: a sequence of safe actions preserves the stack invariant. -/
theorem applyActions_safe_ok :
    ∀ (acts : List Action) (s : List Ctx),
      acts.all actionSafe = true → stackOK s → stackOK (applyActions acts s)
  | [], s, _, h => h
  | a :: acts, s, ha, h => by
    have ha1 : actionSafe a = true := by
      have := List.all_eq_true.mp ha a (List.mem_cons_self _ _)
      exact this
    have ha2 : acts.all actionSafe = true := by
      apply List.all_eq_true.mpr
      intro b hb
      exact List.all_eq_true.mp ha b (List.mem_cons_of_mem _ hb)
    exact applyActions_safe_ok acts (applyAction a s)
      ha2 (applyAction_safe_ok a s ha1 h)

/-- Helper: replacing the top context preserves the invariant at depth at
least two. -/
theorem applyAction_replace_ok (p : ParserId) (x y : Ctx) (r : List Ctx)
    (h : stackOK (x :: y :: r)) :
    stackOK (applyAction (.replaceP p) (x :: y :: r)) := h

/-- Helper: assigning the top argument counter preserves the invariant at
depth at least two. -/
theorem applyAction_setArg_ok (n : Nat) (x y : Ctx) (r : List Ctx)
    (h : stackOK (x :: y :: r)) :
    stackOK (applyAction (.setArgcount n) (x :: y :: r)) := h

/-- Helper: a sequence of pushes and top replacements preserves the
invariant at depth at least two. -/
theorem applyActions_er_ok :
    ∀ (acts : List Action) (x y : Ctx) (r : List Ctx),
      acts.all isEnterOrReplace = true → stackOK (x :: y :: r) →
      stackOK (applyActions acts (x :: y :: r))
  | [], x, y, r, _, h => h
  | a :: acts, x, y, r, ha, h => by
    have ha1 : isEnterOrReplace a = true :=
      List.all_eq_true.mp ha a (List.mem_cons_self _ _)
    have ha2 : acts.all isEnterOrReplace = true := by
      apply List.all_eq_true.mpr
      intro b hb
      exact List.all_eq_true.mp ha b (List.mem_cons_of_mem _ hb)
    cases a with
    | enter p c =>
      exact applyActions_er_ok acts _ x (y :: r) ha2 h
    | replaceP p =>
      exact applyActions_er_ok acts _ y r ha2 h
    | leave => exact absurd ha1 (by simp [isEnterOrReplace])
    | endArg => exact absurd ha1 (by simp [isEnterOrReplace])
    | setArgcount n => exact absurd ha1 (by simp [isEnterOrReplace])

/-- Helper: the markup command dispatch only requests safe actions. -/
theorem markupCommandAction_safe (lex : Lexicon) (cmd : List Char) :
    (markupCommandAction lex cmd).all actionSafe = true := by
  unfold markupCommandAction
  split
  · rfl
  · rfl

/-- Helper: apart from the set-override equal sign, every static token
action is a sequence of safe actions. -/
theorem staticKindAction_safe :
    ∀ k : TokenKind, k ≠ .EqualSignSetOverride →
      (staticKindAction k).all actionSafe = true := by
  decide

/-- Helper: the token action of a kind other than the markup command is
its static action. -/
theorem tokenAction_eq_static (lex : Lexicon) (text : List Char) :
    ∀ k : TokenKind, k ≠ .MarkupCommand →
      tokenAction lex k text = staticKindAction k := by
  intro k hk
  cases k <;> first | rfl | exact absurd rfl hk

set_option maxRecDepth 4096 in
/-- Helper: every parser hook consists of pushes and top replacements
only. -/
theorem parserHook_er :
    ∀ (p : ParserId) (k : TokenKind),
      (parserHook p k).all isEnterOrReplace = true := by
  decide

set_option maxRecDepth 4096 in
/-- Helper: a candidate with a nonempty parser hook has an empty token
action, is not the markup command, and is matched by a context other than
the toplevel one. -/
theorem parserHook_nonempty_facts :
    ∀ (p : ParserId) (k : TokenKind),
      k ∈ parserItems p → parserHook p k ≠ [] →
      staticKindAction k = [] ∧ k ≠ .MarkupCommand ∧
      p ≠ .LilyPondParserGlobal := by
  decide

/-- Helper: the set-override equal sign is only a candidate of the
override and set contexts, never of the toplevel one. -/
theorem eqSignSetOverride_not_toplevel :
    ∀ p : ParserId, .EqualSignSetOverride ∈ parserItems p →
      p ≠ .LilyPondParserGlobal := by
  decide

/-- Helper: no default kind is the set-override equal sign or the markup
command, and no parser hook reacts to its own default kind. -/
theorem parserDefault_facts :
    ∀ p : ParserId,
      parserDefault p ≠ .EqualSignSetOverride ∧
      parserDefault p ≠ .MarkupCommand ∧
      parserHook p (parserDefault p) = [] := by
  decide

/-- Helper: one iteration of the matching loop preserves the stack
invariant. -/
theorem stepOnce_preserves_ok (lex : Lexicon) (prev : Option Char)
    (s : List Ctx) (cs : List Char) (h : stackOK s) :
    stepResultOK (stepOnce lex prev s cs) := by
  cases s with
  | nil => exact absurd rfl (stackOK_ne_nil h)
  | cons ctx rest =>
    unfold stepOnce
    cases hm : findMatch lex prev ctx.pid cs with
    | none =>
      simp only [hm]
      by_cases hf : parserFallthrough ctx.pid = true
      · rw [if_pos hf]
        show stackOK (fallAction ctx.pid (ctx :: rest))
        cases rest with
        | nil =>
          have hp : ctx.pid = .LilyPondParserGlobal :=
            congrArg Ctx.pid (stackOK_singleton h)
          rw [hp] at hf
          exact absurd hf (by simp [parserFallthrough])
        | cons y r =>
          by_cases hp : ctx.pid = .DurationParser
          · rw [hp]
            exact applyAction_replace_ok _ _ _ _ h
          · rw [fallAction_of_ne_duration ctx.pid hp]
            exact applyAction_safe_ok _ _ rfl h
      · rw [if_neg hf]
        cases cs with
        | nil => trivial
        | cons c cs2 =>
          show stackOK (applyActions (parserHook ctx.pid (parserDefault ctx.pid))
            (applyActions (tokenAction lex (parserDefault ctx.pid)
              (List.take (defaultRun lex ctx.pid c cs2) (c :: cs2)))
              (ctx :: rest)))
          obtain ⟨hd1, hd2, hd3⟩ := parserDefault_facts ctx.pid
          rw [hd3, tokenAction_eq_static lex _ _ hd2]
          exact applyActions_safe_ok (staticKindAction (parserDefault ctx.pid))
            (ctx :: rest) (staticKindAction_safe _ hd1) h
    | some kn =>
      obtain ⟨k, n⟩ := kn
      simp only [hm]
      show stackOK (applyActions (parserHook ctx.pid k)
        (applyActions (tokenAction lex k (List.take n cs)) (ctx :: rest)))
      have hkmem : k ∈ parserItems ctx.pid :=
        tryItems_mem lex prev _ cs k n hm
      by_cases hk : k = .MarkupCommand
      · subst hk
        have h1 : stackOK (applyActions
            (tokenAction lex .MarkupCommand (List.take n cs)) (ctx :: rest)) :=
          applyActions_safe_ok _ _ (markupCommandAction_safe lex _) h
        by_cases hh : parserHook ctx.pid .MarkupCommand = []
        · rw [hh]
          exact h1
        · exact absurd rfl (parserHook_nonempty_facts _ _ hkmem hh).2.1
      · rw [tokenAction_eq_static lex _ k hk]
        by_cases hk2 : k = .EqualSignSetOverride
        · subst hk2
          have hpg : ctx.pid ≠ .LilyPondParserGlobal :=
            eqSignSetOverride_not_toplevel _ hkmem
          cases rest with
          | nil => exact absurd (congrArg Ctx.pid (stackOK_singleton h)) hpg
          | cons y r =>
            have h1 : stackOK (applyActions
                (staticKindAction .EqualSignSetOverride) (ctx :: y :: r)) :=
              applyAction_setArg_ok 1 _ _ _ h
            by_cases hh : parserHook ctx.pid .EqualSignSetOverride = []
            · rw [hh]
              exact h1
            · have := (parserHook_nonempty_facts _ _ hkmem hh).1
              exact absurd this (by simp [staticKindAction])
        · have h1 : stackOK (applyActions (staticKindAction k) (ctx :: rest)) :=
            applyActions_safe_ok _ _ (staticKindAction_safe k hk2) h
          by_cases hh : parserHook ctx.pid k = []
          · rw [hh]
            exact h1
          · obtain ⟨hsk, _, hpg⟩ := parserHook_nonempty_facts _ _ hkmem hh
            rw [hsk]
            cases rest with
            | nil => exact absurd (congrArg Ctx.pid (stackOK_singleton h)) hpg
            | cons y r => exact applyActions_er_ok _ _ _ _ (parserHook_er _ k) h

/-- Helper: the matching loop preserves the stack invariant for any fuel. -/
theorem tokenizeLoop_preserves_ok (lex : Lexicon) :
    ∀ (fuel : Nat) (prev : Option Char) (s : List Ctx) (cs : List Char),
      stackOK s → stackOK (tokenizeLoop lex fuel prev s cs).2
  | 0, _, _, _, h => h
  | fuel + 1, prev, s, cs, h => by
    have hstep := stepOnce_preserves_ok lex prev s cs h
    unfold tokenizeLoop
    cases hr : stepOnce lex prev s cs with
    | done => exact h
    | fall s2 =>
      rw [hr] at hstep
      exact tokenizeLoop_preserves_ok lex fuel prev s2 cs hstep
    | emit k text s2 prev2 rest =>
      rw [hr] at hstep
      exact tokenizeLoop_preserves_ok lex fuel prev2 s2 rest hstep

/-- Helper: the end-of-argument walk is a sequence of pops followed by the
push of at most one context. -/
theorem endArgFn_shape : ∀ (s : List Ctx), ∃ (n : Nat) (top : List Ctx),
    n ≤ s.length ∧ top.length ≤ 1 ∧ endArgFn s = top ++ List.drop n s
  | [] => ⟨0, [], by simp, by simp, rfl⟩
  | [x] => ⟨0, [], by simp, by simp, rfl⟩
  | x :: y :: r => by
    show ∃ n top, n ≤ (x :: y :: r).length ∧ top.length ≤ 1 ∧
      (if x.argcount == 1 then endArgFn (y :: r)
       else if 1 < x.argcount then ⟨x.pid, x.argcount - 1⟩ :: y :: r
       else x :: y :: r) = top ++ List.drop n (x :: y :: r)
    by_cases h1 : x.argcount == 1
    · rw [if_pos h1]
      obtain ⟨n, top, hn, ht, he⟩ := endArgFn_shape (y :: r)
      refine ⟨n + 1, top, ?_, ht, ?_⟩
      · simp only [List.length_cons] at hn ⊢
        omega
      · simpa using he
    · rw [if_neg h1]
      by_cases h2 : 1 < x.argcount
      · rw [if_pos h2]
        exact ⟨1, [⟨x.pid, x.argcount - 1⟩], by simp, by simp, rfl⟩
      · rw [if_neg h2]
        exact ⟨0, [], by simp, by simp, rfl⟩

/-- Helper: every primitive action is a number of pops followed by the
push of at most one context: pushing and popping are the only structural
mutations. -/
theorem applyAction_shape (a : Action) (s : List Ctx) :
    ∃ (n : Nat) (top : List Ctx),
      n ≤ s.length ∧ top.length ≤ 1 ∧
      applyAction a s = top ++ List.drop n s := by
  cases a with
  | enter p c =>
    exact ⟨0, [⟨p, c.getD (parserArgcount p)⟩], by simp, by simp, rfl⟩
  | leave =>
    cases s with
    | nil => exact ⟨0, [], by simp, by simp, rfl⟩
    | cons x r =>
      cases r with
      | nil => exact ⟨0, [], by simp, by simp, rfl⟩
      | cons y t => exact ⟨1, [], by simp, by simp, rfl⟩
  | endArg => exact endArgFn_shape s
  | replaceP p =>
    cases s with
    | nil => exact ⟨0, [⟨p, parserArgcount p⟩], by simp, by simp, rfl⟩
    | cons x r => exact ⟨1, [⟨p, parserArgcount p⟩], by simp, by simp, rfl⟩
  | setArgcount m =>
    cases s with
    | nil => exact ⟨0, [], by simp, by simp, rfl⟩
    | cons x r => exact ⟨1, [⟨x.pid, m⟩], by simp, by simp, rfl⟩

/-- C2: while input remains, the context stack stays nonempty with the
toplevel context at its bottom: every loop iteration and every loop run
preserve the invariant; no candidate of the toplevel context has a
transition that pops (all its token actions only push), the toplevel
context has no updateState hook and no fallthrough; and every primitive
transition action is a sequence of pops followed by the push of at most
one context, so pushing and popping are the only structural mutations. -/
theorem claim2_stack_never_empty :
    (∀ (lex : Lexicon) (prev : Option Char) (s : List Ctx) (cs : List Char),
      stackOK s → stepResultOK (stepOnce lex prev s cs)) ∧
    (∀ (lex : Lexicon) (fuel : Nat) (prev : Option Char) (s : List Ctx)
      (cs : List Char),
      stackOK s → stackOK (tokenizeLoop lex fuel prev s cs).2) ∧
    (∀ k ∈ parserItems .LilyPondParserGlobal,
      ∀ (lex : Lexicon) (text : List Char),
        (tokenAction lex k text).all isPushAction = true) ∧
    (∀ k, parserHook .LilyPondParserGlobal k = []) ∧
    parserFallthrough .LilyPondParserGlobal = false ∧
    (∀ (a : Action) (s : List Ctx), ∃ (n : Nat) (top : List Ctx),
      n ≤ s.length ∧ top.length ≤ 1 ∧
      applyAction a s = top ++ List.drop n s) := by
  refine ⟨stepOnce_preserves_ok, fun lex => tokenizeLoop_preserves_ok lex,
    ?_, fun k => rfl, rfl, applyAction_shape⟩
  intro k hk lex text
  have hne : k ≠ .MarkupCommand := by
    intro he
    subst he
    revert hk
    decide
  rw [tokenAction_eq_static lex text k hne]
  have hall : ∀ k2 ∈ parserItems .LilyPondParserGlobal,
      (staticKindAction k2).all isPushAction = true := by decide
  exact hall k hk

/-- C2 witness: the invariant at concrete inputs. -/
theorem claim2_stack_never_empty_witness :
    stackOK initialStack ∧
    stepResultOK (stepOnce emptyLexicon none initialStack ['{']) ∧
    stackOK (tokenizeLoop emptyLexicon 64 none initialStack ['{', 'c']).2 := by
  refine ⟨by decide, ?_, ?_⟩
  · exact claim2_stack_never_empty.1 emptyLexicon none initialStack ['{']
      (by decide)
  · exact claim2_stack_never_empty.2.1 emptyLexicon 64 none initialStack
      ['{', 'c'] (by decide)

/-- C7: the block comment opener pushes the block comment context; inside
that context the only candidates are the comment-space and the end marker,
its default is the plain comment kind and it has no fallthrough; no token
matched there pushes any context: one loop iteration either finishes (at
end of input, with the block comment context left on the stack and no
token emitted), or emits the end marker which pops exactly the block
comment context, or emits a comment-space or default comment token with
the stack unchanged. -/
theorem claim7_block_comment_containment (lex : Lexicon) (prev : Option Char)
    (a : Nat) (y : Ctx) (s : List Ctx) (cs : List Char) :
    (∀ text, tokenAction lex .BlockCommentStart text =
      [.enter .BlockCommentParser none]) ∧
    parserItems .BlockCommentParser = [.BlockCommentSpace, .BlockCommentEnd] ∧
    parserDefault .BlockCommentParser = .Comment ∧
    parserFallthrough .BlockCommentParser = false ∧
    (∀ k ∈ parserItems .BlockCommentParser,
      staticKindAction k = [] ∨ staticKindAction k = [.leave]) ∧
    ((stepOnce lex prev (⟨.BlockCommentParser, a⟩ :: y :: s) cs = .done ∧
        cs = []) ∨
     (∃ text prev2 rest,
        stepOnce lex prev (⟨.BlockCommentParser, a⟩ :: y :: s) cs =
          .emit .BlockCommentEnd text (y :: s) prev2 rest) ∨
     (∃ k text prev2 rest,
        stepOnce lex prev (⟨.BlockCommentParser, a⟩ :: y :: s) cs =
          .emit k text (⟨.BlockCommentParser, a⟩ :: y :: s) prev2 rest ∧
        (k = .BlockCommentSpace ∨ k = .Comment))) := by
  refine ⟨fun text => rfl, rfl, rfl, rfl, by decide, ?_⟩
  cases cs with
  | nil => exact Or.inl ⟨rfl, rfl⟩
  | cons c cs2 =>
    cases hm : findMatch lex prev .BlockCommentParser (c :: cs2) with
    | none =>
      refine Or.inr (Or.inr
        ⟨.Comment,
         List.take (defaultRun lex .BlockCommentParser c cs2) (c :: cs2),
         lastCharOf prev
           (List.take (defaultRun lex .BlockCommentParser c cs2) (c :: cs2)),
         List.drop (defaultRun lex .BlockCommentParser c cs2) (c :: cs2),
         ?_, Or.inr rfl⟩)
      unfold stepOnce
      simp only [hm]
      rfl
    | some kn =>
      obtain ⟨k, n⟩ := kn
      have hkmem := tryItems_mem lex prev _ (c :: cs2) k n hm
      have hk : k = .BlockCommentSpace ∨ k = .BlockCommentEnd := by
        simpa [parserItems] using hkmem
      rcases hk with rfl | rfl
      · refine Or.inr (Or.inr
          ⟨.BlockCommentSpace, List.take n (c :: cs2),
           lastCharOf prev (List.take n (c :: cs2)),
           List.drop n (c :: cs2), ?_, Or.inl rfl⟩)
        unfold stepOnce
        simp only [hm]
        rfl
      · refine Or.inr (Or.inl
          ⟨List.take n (c :: cs2),
           lastCharOf prev (List.take n (c :: cs2)),
           List.drop n (c :: cs2), ?_⟩)
        unfold stepOnce
        simp only [hm]
        rfl

/-- Helper: a successful literal match consumes exactly the literal. -/
theorem matchLit_eq : ∀ (w cs : List Char) (n : Nat),
    matchLit w cs = some n → n = w.length ∧ List.take n cs = w
  | [], cs, n, h => by
    have hn : n = 0 := by
      have : (some 0 : Option Nat) = some n := h
      exact (Option.some.inj this).symm
    subst hn
    exact ⟨rfl, rfl⟩
  | l :: ls, [], n, h => by exact absurd h (by simp [matchLit])
  | l :: ls, c :: cs, n, h => by
    unfold matchLit at h
    by_cases he : (c == l) = true
    · rw [if_pos he] at h
      cases hm : matchLit ls cs with
      | none => rw [hm] at h; exact absurd h (by simp)
      | some m =>
        rw [hm] at h
        have hn : m + 1 = n := by
          have : (some (m + 1) : Option Nat) = some n := h
          exact Option.some.inj this
        subst hn
        obtain ⟨h1, h2⟩ := matchLit_eq ls cs m hm
        refine ⟨by simp [h1], ?_⟩
        have hcl : c = l := eq_of_beq he
        simp [List.take_succ_cons, h2, hcl]
    · rw [if_neg he] at h
      exact absurd h (by simp)

/-- Helper: an alternation of nonempty all-letter words cannot match at a
character that is not a letter. -/
theorem matchWordAlt_none_of_head_not_alpha (guard : List Char → Bool) :
    ∀ (ws : List (List Char)), wordsWF ws →
      ∀ (c : Char), isAsciiAlpha c = false →
      ∀ (cs : List Char), matchWordAlt guard ws (c :: cs) = none
  | [], _, c, hc, cs => rfl
  | w :: ws, hws, c, hc, cs => by
    obtain ⟨hne, hal⟩ := hws w (List.mem_cons_self _ _)
    have hrest : wordsWF ws := fun w2 hw2 => hws w2 (List.mem_cons_of_mem _ hw2)
    cases w with
    | nil => exact absurd rfl hne
    | cons c0 w2 =>
      have hc0 : isAsciiAlpha c0 = true := hal c0 (List.mem_cons_self _ _)
      have hne2 : (c == c0) = false := by
        apply beq_eq_false_iff_ne.mpr
        intro he
        rw [he, hc0] at hc
        exact Bool.noConfusion hc
      have hlit : matchLit (c0 :: w2) (c :: cs) = none := by
        unfold matchLit
        rw [hne2]
        rfl
      show matchWordAlt guard ((c0 :: w2) :: ws) (c :: cs) = none
      unfold matchWordAlt
      rw [hlit]
      exact matchWordAlt_none_of_head_not_alpha guard ws hrest c hc cs

/-- Helper: a bounded vocabulary of nonempty all-letter words cannot match
at a character that is not a letter, whatever the previous character. -/
theorem matchBoundedVocab_none_of_head_not_alpha (guard : List Char → Bool)
    (ws : List (List Char)) (hws : wordsWF ws) (c : Char)
    (hc : isAsciiAlpha c = false) (prev : Option Char) (cs : List Char) :
    matchBoundedVocab guard ws prev (c :: cs) = none := by
  unfold matchBoundedVocab
  by_cases hb : isBoundary prev (c :: cs) = true
  · rw [if_pos hb]
    exact matchWordAlt_none_of_head_not_alpha guard ws hws c hc cs
  · rw [if_neg hb]

/-- Helper: after any proper prefix of the word context, the next
character is a letter. -/
theorem noAlphaAfter_drop_ctxWord :
    ∀ n, n ≤ 6 → noAlphaAfter (List.drop n ctxWord) = false := by
  decide

/-- Helper: an alternation with the letter lookahead guard cannot match
the word context unless the word itself is in the vocabulary. -/
theorem matchWordAlt_ctxWord_none :
    ∀ (ws : List (List Char)), ctxWord ∉ ws →
      matchWordAlt noAlphaAfter ws ctxWord = none
  | [], _ => rfl
  | w :: ws, h => by
    have hw : w ≠ ctxWord := fun he => h (he ▸ List.mem_cons_self _ _)
    have hrest : ctxWord ∉ ws := fun hm => h (List.mem_cons_of_mem _ hm)
    unfold matchWordAlt
    cases hm : matchLit w ctxWord with
    | none => exact matchWordAlt_ctxWord_none ws hrest
    | some n =>
      obtain ⟨hn, htake⟩ := matchLit_eq w ctxWord n hm
      have hlen : n ≤ 7 := by
        have hcong := congrArg List.length htake
        rw [List.length_take] at hcong
        have : ctxWord.length = 7 := rfl
        omega
      have hn6 : n ≤ 6 := by
        rcases Nat.lt_or_ge n 7 with h7 | h7
        · omega
        · exfalso
          have hn7 : n = 7 := by omega
          subst hn7
          have : List.take 7 ctxWord = ctxWord := rfl
          rw [this] at htake
          exact hw htake.symm
      show (if noAlphaAfter (List.drop n ctxWord) = true then some n
        else matchWordAlt noAlphaAfter ws ctxWord) = none
      rw [noAlphaAfter_drop_ctxWord n hn6]
      exact matchWordAlt_ctxWord_none ws hrest

/-- Helper: the candidate walk skips a failing candidate. -/
theorem tryItems_cons_none {lex : Lexicon} {prev : Option Char}
    {k : TokenKind} {ks : List TokenKind} {cs : List Char}
    (h : kindMatch lex prev k cs = none) :
    tryItems lex prev (k :: ks) cs = tryItems lex prev ks cs := by
  conv => lhs; unfold tryItems
  rw [h]

/-- Helper: the candidate walk stops at the first matching candidate. -/
theorem tryItems_cons_some {lex : Lexicon} {prev : Option Char}
    {k : TokenKind} {ks : List TokenKind} {cs : List Char} {n : Nat}
    (h : kindMatch lex prev k cs = some n) :
    tryItems lex prev (k :: ks) cs = some (k, n) := by
  unfold tryItems
  rw [h]

/-- Helper: the letter count of an all-letter list is its full length. -/
theorem takeWhileCount_all_alpha :
    ∀ (cmd : List Char), (∀ c ∈ cmd, isAsciiAlpha c = true) →
      takeWhileCount isAsciiAlpha cmd = cmd.length
  | [], _ => rfl
  | c :: cmd, h => by
    unfold takeWhileCount
    rw [h c (List.mem_cons_self _ _)]
    simp [takeWhileCount_all_alpha cmd
      (fun c2 hc2 => h c2 (List.mem_cons_of_mem _ hc2))]

/-- C3: a backslashed all-letter command other than score, alone in the
input, matches the markup command kind in a markup context and dispatches
on the arity vocabularies: a command of the zero-argument vocabulary ends
the pending argument and pushes nothing; a command declared with arity
two, three or four (and absent from the other two of those vocabularies)
pushes a markup context expecting exactly that many arguments; and a
command absent from all arity vocabularies pushes a markup context
expecting exactly one argument. -/
theorem claim3_markup_command_arity (lex : Lexicon) (cmd : List Char)
    (a : Nat) (s : List Ctx)
    (hne : cmd ≠ [])
    (halpha : ∀ c ∈ cmd, isAsciiAlpha c = true)
    (hscore : cmd ≠ ['s','c','o','r','e']) :
    findMatch lex none .MarkupParser ('\\' :: cmd) =
      some (.MarkupCommand, 1 + cmd.length) ∧
    (cmd ∈ lex.markupcommands_nargs0 →
      stepOnce lex none (⟨.MarkupParser, a⟩ :: s) ('\\' :: cmd) =
        .emit .MarkupCommand ('\\' :: cmd)
          (endArgFn (⟨.MarkupParser, a⟩ :: s))
          (lastCharOf none ('\\' :: cmd)) []) ∧
    (cmd ∉ lex.markupcommands_nargs0 →
      ∀ k, (k = 2 ∨ k = 3 ∨ k = 4) → cmd ∈ lex.markupNargs k →
      (∀ j, (j = 2 ∨ j = 3 ∨ j = 4) → j ≠ k → cmd ∉ lex.markupNargs j) →
      stepOnce lex none (⟨.MarkupParser, a⟩ :: s) ('\\' :: cmd) =
        .emit .MarkupCommand ('\\' :: cmd)
          (⟨.MarkupParser, k⟩ :: ⟨.MarkupParser, a⟩ :: s)
          (lastCharOf none ('\\' :: cmd)) []) ∧
    (cmd ∉ lex.markupcommands_nargs0 → cmd ∉ lex.markupcommands_nargs1 →
     cmd ∉ lex.markupcommands_nargs2 → cmd ∉ lex.markupcommands_nargs3 →
     cmd ∉ lex.markupcommands_nargs4 →
      stepOnce lex none (⟨.MarkupParser, a⟩ :: s) ('\\' :: cmd) =
        .emit .MarkupCommand ('\\' :: cmd)
          (⟨.MarkupParser, 1⟩ :: ⟨.MarkupParser, a⟩ :: s)
          (lastCharOf none ('\\' :: cmd)) []) := by
  have hlen0 : cmd.length ≠ 0 := by
    intro h0
    exact hne (List.length_eq_zero.mp h0)
  have hMC : kindMatch lex none .MarkupCommand ('\\' :: cmd) =
      some (1 + cmd.length) := by
    show (if (takeWhileCount isAsciiAlpha cmd == 0) = true then none
          else some (1 + takeWhileCount isAsciiAlpha cmd +
            markupCmdTail (List.drop (takeWhileCount isAsciiAlpha cmd) cmd))) =
      some (1 + cmd.length)
    rw [takeWhileCount_all_alpha cmd halpha, beq_eq_false_iff_ne.mpr hlen0]
    rw [List.drop_length]
    have ht : markupCmdTail [] = 0 := by
      unfold markupCmdTail
      rfl
    rw [ht]
    rfl
  have hMS : kindMatch lex none .MarkupScore ('\\' :: cmd) = none := by
    show matchLitG ['\\','s','c','o','r','e'] noWordAfter ('\\' :: cmd) = none
    unfold matchLitG
    cases hl : matchLit ['\\','s','c','o','r','e'] ('\\' :: cmd) with
    | none => rfl
    | some n =>
      obtain ⟨hn, htake⟩ := matchLit_eq _ _ _ hl
      subst hn
      have htake2 : List.take 5 cmd = ['s','c','o','r','e'] := by
        have he : List.take (['\\','s','c','o','r','e'].length) ('\\' :: cmd) =
            '\\' :: List.take 5 cmd := rfl
        rw [he] at htake
        exact (List.cons_eq_cons.mp htake).2
      have hguard : noWordAfter
          (List.drop (['\\','s','c','o','r','e'].length) ('\\' :: cmd)) =
          false := by
        have hd : List.drop (['\\','s','c','o','r','e'].length) ('\\' :: cmd) =
            List.drop 5 cmd := rfl
        rw [hd]
        cases hdrop : List.drop 5 cmd with
        | nil =>
          exfalso
          apply hscore
          have hsplit : List.take 5 cmd ++ List.drop 5 cmd = cmd :=
            List.take_append_drop 5 cmd
          rw [htake2, hdrop] at hsplit
          simpa using hsplit.symm
        | cons c2 r2 =>
          have hc2 : c2 ∈ cmd := by
            apply List.drop_subset 5 cmd
            rw [hdrop]
            exact List.mem_cons_self _ _
          have hal : isAsciiAlpha c2 = true := halpha c2 hc2
          show (!isWordChar c2) = false
          unfold isWordChar
          rw [hal]
          rfl
      show (if noWordAfter
          (List.drop (['\\','s','c','o','r','e'].length) ('\\' :: cmd)) = true
        then some (['\\','s','c','o','r','e'].length) else none) = none
      rw [hguard]
      rfl
  have hfind : findMatch lex none .MarkupParser ('\\' :: cmd) =
      some (.MarkupCommand, 1 + cmd.length) := by
    show tryItems lex none (parserItems .MarkupParser) ('\\' :: cmd) =
      some (.MarkupCommand, 1 + cmd.length)
    have e : parserItems .MarkupParser =
        .MarkupScore :: .MarkupCommand ::
          ([.OpenBracketMarkup, .CloseBracketMarkup, .MarkupWord] ++
            baseItems) := rfl
    rw [e, tryItems_cons_none hMS, tryItems_cons_some hMC]
  have htext : List.take (1 + cmd.length) ('\\' :: cmd) = '\\' :: cmd := by
    rw [Nat.add_comm, List.take_succ_cons, List.take_length]
  have hdropI : List.drop (1 + cmd.length) ('\\' :: cmd) = [] := by
    rw [Nat.add_comm, List.drop_succ_cons, List.drop_length]
  have hstep : stepOnce lex none (⟨.MarkupParser, a⟩ :: s) ('\\' :: cmd) =
      .emit .MarkupCommand ('\\' :: cmd)
        (applyActions (markupCommandAction lex cmd) (⟨.MarkupParser, a⟩ :: s))
        (lastCharOf none ('\\' :: cmd)) [] := by
    unfold stepOnce
    simp only [hfind]
    rw [htext, hdropI]
    rfl
  refine ⟨hfind, ?_, ?_, ?_⟩
  · intro h0
    rw [hstep]
    have hact : markupCommandAction lex cmd = [.endArg] := by
      unfold markupCommandAction
      rw [if_pos h0]
    rw [hact]
    rfl
  · intro h0 k hk hmem hexcl
    rw [hstep]
    have hact : markupCommandAction lex cmd =
        [.enter .MarkupParser (some k)] := by
      unfold markupCommandAction
      rw [if_neg h0]
      show [Action.enter .MarkupParser (some
        (if cmd ∈ lex.markupcommands_nargs2 then 2
         else if cmd ∈ lex.markupcommands_nargs3 then 3
         else if cmd ∈ lex.markupcommands_nargs4 then 4
         else 1))] = [Action.enter .MarkupParser (some k)]
      rcases hk with rfl | rfl | rfl
      · have hmem2 : cmd ∈ lex.markupcommands_nargs2 := hmem
        rw [if_pos hmem2]
      · have hmem2 : cmd ∈ lex.markupcommands_nargs3 := hmem
        have h2 : cmd ∉ lex.markupcommands_nargs2 :=
          hexcl 2 (Or.inl rfl) (by decide)
        rw [if_neg h2, if_pos hmem2]
      · have hmem2 : cmd ∈ lex.markupcommands_nargs4 := hmem
        have h2 : cmd ∉ lex.markupcommands_nargs2 :=
          hexcl 2 (Or.inl rfl) (by decide)
        have h3 : cmd ∉ lex.markupcommands_nargs3 :=
          hexcl 3 (Or.inr (Or.inl rfl)) (by decide)
        rw [if_neg h2, if_neg h3, if_pos hmem2]
    rw [hact]
    rfl
  · intro h0 h1 h2 h3 h4
    rw [hstep]
    have hact : markupCommandAction lex cmd =
        [.enter .MarkupParser (some 1)] := by
      unfold markupCommandAction
      rw [if_neg h0]
      show [Action.enter .MarkupParser (some
        (if cmd ∈ lex.markupcommands_nargs2 then 2
         else if cmd ∈ lex.markupcommands_nargs3 then 3
         else if cmd ∈ lex.markupcommands_nargs4 then 4
         else 1))] = [Action.enter .MarkupParser (some 1)]
      rw [if_neg h2, if_neg h3, if_neg h4]
    rw [hact]
    rfl

/-- C3 witness: the dispatch at concrete commands of the sample lexicon:
the zero-argument command a ends the pending argument, the arity-three
command c pushes a markup context expecting three arguments, and the
undeclared command e pushes one expecting a single argument. -/
theorem claim3_markup_command_arity_witness :
    stepOnce sampleLexicon none [⟨.MarkupParser, 1⟩] ['\\', 'a'] =
      .emit .MarkupCommand ['\\', 'a'] (endArgFn [⟨.MarkupParser, 1⟩])
        (lastCharOf none ['\\', 'a']) [] ∧
    stepOnce sampleLexicon none [⟨.MarkupParser, 1⟩] ['\\', 'c'] =
      .emit .MarkupCommand ['\\', 'c'] [⟨.MarkupParser, 3⟩, ⟨.MarkupParser, 1⟩]
        (lastCharOf none ['\\', 'c']) [] ∧
    stepOnce sampleLexicon none [⟨.MarkupParser, 1⟩] ['\\', 'e'] =
      .emit .MarkupCommand ['\\', 'e'] [⟨.MarkupParser, 1⟩, ⟨.MarkupParser, 1⟩]
        (lastCharOf none ['\\', 'e']) [] := by
  refine ⟨?_, ?_, ?_⟩
  · exact (claim3_markup_command_arity sampleLexicon ['a'] 1 []
      (by decide) (by decide) (by decide)).2.1 (by decide)
  · exact (claim3_markup_command_arity sampleLexicon ['c'] 1 []
      (by decide) (by decide) (by decide)).2.2.1 (by decide) 3
      (Or.inr (Or.inl rfl)) (by decide)
      (by
        intro j hj hjk
        rcases hj with rfl | rfl | rfl
        · decide
        · exact absurd rfl hjk
        · decide)
  · exact (claim3_markup_command_arity sampleLexicon ['e'] 1 []
      (by decide) (by decide) (by decide)).2.2.2 (by decide) (by decide)
      (by decide) (by decide) (by decide)

/-- Helper: the candidate walk skips a failing prefix of candidates. -/
theorem tryItems_append_none (lex : Lexicon) (prev : Option Char)
    (cs : List Char) :
    ∀ (l1 l2 : List TokenKind), tryItems lex prev l1 cs = none →
      tryItems lex prev (l1 ++ l2) cs = tryItems lex prev l2 cs
  | [], l2, _ => rfl
  | k :: l1, l2, h => by
    have hk : kindMatch lex prev k cs = none := by
      cases hm : kindMatch lex prev k cs with
      | none => rfl
      | some n =>
        rw [tryItems_cons_some hm] at h
        exact absurd h (by simp)
    have h1 : tryItems lex prev l1 cs = none := by
      rw [tryItems_cons_none hk] at h
      exact h
    show tryItems lex prev ((k :: l1) ++ l2) cs = tryItems lex prev l2 cs
    rw [List.cons_append, tryItems_cons_none hk]
    exact tryItems_append_none lex prev cs l1 l2 h1

/-- C9: in an override or set context (whose class argument counter starts
at zero), an equal sign matches the set-override equal kind, whose action
assigns the counter of the active context to exactly one; the context then
pops on exactly one subsequent end-of-argument walk, while with counter
zero the walk leaves it in place; a full trace of backslash set, a name,
an equal sign and a quoted value returns to the bare toplevel stack. -/
theorem claim9_override_set_argcount (lex : Lexicon) (prev : Option Char)
    (a : Nat) (x : Ctx) (t s : List Ctx) (cs : List Char)
    (hwf : lex.SaneNames) :
    findMatch lex prev .LilyPondParserOverride ('=' :: cs) =
      some (.EqualSignSetOverride, 1) ∧
    findMatch lex prev .LilyPondParserSet ('=' :: cs) =
      some (.EqualSignSetOverride, 1) ∧
    stepOnce lex prev (⟨.LilyPondParserOverride, a⟩ :: s) ('=' :: cs) =
      .emit .EqualSignSetOverride ['='] (⟨.LilyPondParserOverride, 1⟩ :: s)
        (some '=') cs ∧
    stepOnce lex prev (⟨.LilyPondParserSet, a⟩ :: s) ('=' :: cs) =
      .emit .EqualSignSetOverride ['='] (⟨.LilyPondParserSet, 1⟩ :: s)
        (some '=') cs ∧
    parserArgcount .LilyPondParserOverride = 0 ∧
    parserArgcount .LilyPondParserSet = 0 ∧
    endArgFn (⟨.LilyPondParserOverride, 1⟩ :: x :: t) = endArgFn (x :: t) ∧
    endArgFn (⟨.LilyPondParserSet, 1⟩ :: x :: t) = endArgFn (x :: t) ∧
    endArgFn (⟨.LilyPondParserOverride, 0⟩ :: x :: t) =
      ⟨.LilyPondParserOverride, 0⟩ :: x :: t ∧
    endArgFn (⟨.LilyPondParserSet, 0⟩ :: x :: t) =
      ⟨.LilyPondParserSet, 0⟩ :: x :: t ∧
    tokenize emptyLexicon inputSetTrace =
      ([(.Set, ['\\','s','e','t']), (.Space, [' ']), (.Name, ['A']),
        (.Space, [' ']), (.EqualSignSetOverride, ['=']), (.Space, [' ']),
        (.StringQuotedStart, ['"']), (.String, ['a']),
        (.StringQuotedEnd, ['"'])], initialStack) := by
  have hCN : kindMatch lex prev .ContextName ('=' :: cs) = none :=
    matchBoundedVocab_none_of_head_not_alpha noWordAfter lex.contexts
      hwf.1 '=' rfl prev cs
  have hGN : kindMatch lex prev .GrobName ('=' :: cs) = none :=
    matchBoundedVocab_none_of_head_not_alpha noWordAfter lex.grobs
      hwf.2.1 '=' rfl prev cs
  have hCP : kindMatch lex prev .ContextProperty ('=' :: cs) = none :=
    matchBoundedVocab_none_of_head_not_alpha noWordAfter
      lex.context_properties hwf.2.2 '=' rfl prev cs
  have hDot : kindMatch lex prev .DotSetOverride ('=' :: cs) = none := rfl
  have hEq : kindMatch lex prev .EqualSignSetOverride ('=' :: cs) =
      some 1 := rfl
  have hfindO : findMatch lex prev .LilyPondParserOverride ('=' :: cs) =
      some (.EqualSignSetOverride, 1) := by
    show tryItems lex prev
      (.ContextName :: .DotSetOverride :: .GrobName ::
        (.EqualSignSetOverride :: ([.Name, .Markup, .MarkupLines] ++
          baseItems))) ('=' :: cs) =
      some (.EqualSignSetOverride, 1)
    rw [tryItems_cons_none hCN, tryItems_cons_none hDot,
      tryItems_cons_none hGN]
    exact tryItems_cons_some hEq
  have hfindS : findMatch lex prev .LilyPondParserSet ('=' :: cs) =
      some (.EqualSignSetOverride, 1) := by
    show tryItems lex prev
      (.ContextName :: .DotSetOverride :: .ContextProperty ::
        (.EqualSignSetOverride :: ([.Name, .Markup, .MarkupLines] ++
          baseItems))) ('=' :: cs) = some (.EqualSignSetOverride, 1)
    rw [tryItems_cons_none hCN, tryItems_cons_none hDot,
      tryItems_cons_none hCP]
    exact tryItems_cons_some hEq
  refine ⟨hfindO, hfindS, ?_, ?_, rfl, rfl, rfl, rfl, rfl, rfl, rfl⟩
  · unfold stepOnce
    simp only [hfindO]
    rfl
  · unfold stepOnce
    simp only [hfindS]
    rfl

/-- C9 witness: the equal sign at a concrete input in a set context. -/
theorem claim9_override_set_argcount_witness :
    stepOnce emptyLexicon (some ' ')
        [⟨.LilyPondParserSet, 0⟩, ⟨.LilyPondParserGlobal, 0⟩] ['='] =
      .emit .EqualSignSetOverride ['=']
        [⟨.LilyPondParserSet, 1⟩, ⟨.LilyPondParserGlobal, 0⟩]
        (some '=') [] :=
  (claim9_override_set_argcount emptyLexicon (some ' ') 0
    ⟨.LilyPondParserGlobal, 0⟩ [] [⟨.LilyPondParserGlobal, 0⟩] []
    (by decide)).2.2.2.1

/-- C10: the input backslash context is lexed context-sensitively: inside
a layout or midi body it matches the LayoutContext keyword kind and pushes
the expect context for a context block, while in the toplevel and music
contexts it matches the Context kind of the new-command family and pushes
the fallthrough new-context parser instead. -/
theorem claim10_context_dispatch (lex : Lexicon) (prev : Option Char)
    (a : Nat) (s : List Ctx)
    (hwf : lex.SaneNames)
    (hart : ctxWord ∉ lex.articulationWords) :
    findMatch lex prev .LilyPondParserLayout ('\\' :: ctxWord) =
      some (.LayoutContext, 8) ∧
    findMatch lex prev .LilyPondParserMidi ('\\' :: ctxWord) =
      some (.LayoutContext, 8) ∧
    findMatch lex prev .LilyPondParserGlobal ('\\' :: ctxWord) =
      some (.Context, 8) ∧
    findMatch lex prev .LilyPondParserMusic ('\\' :: ctxWord) =
      some (.Context, 8) ∧
    stepOnce lex prev (⟨.LilyPondParserLayout, a⟩ :: s) ('\\' :: ctxWord) =
      .emit .LayoutContext ('\\' :: ctxWord)
        (⟨.LilyPondParserExpectContext, 0⟩ :: ⟨.LilyPondParserLayout, a⟩ :: s)
        (some 't') [] ∧
    stepOnce lex prev (⟨.LilyPondParserMidi, a⟩ :: s) ('\\' :: ctxWord) =
      .emit .LayoutContext ('\\' :: ctxWord)
        (⟨.LilyPondParserExpectContext, 0⟩ :: ⟨.LilyPondParserMidi, a⟩ :: s)
        (some 't') [] ∧
    stepOnce lex prev (⟨.LilyPondParserGlobal, a⟩ :: s) ('\\' :: ctxWord) =
      .emit .Context ('\\' :: ctxWord)
        (⟨.LilyPondParserNewContext, 0⟩ :: ⟨.LilyPondParserGlobal, a⟩ :: s)
        (some 't') [] ∧
    stepOnce lex prev (⟨.LilyPondParserMusic, a⟩ :: s) ('\\' :: ctxWord) =
      .emit .Context ('\\' :: ctxWord)
        (⟨.LilyPondParserNewContext, 0⟩ :: ⟨.LilyPondParserMusic, a⟩ :: s)
        (some 't') [] ∧
    parserFallthrough .LilyPondParserNewContext = true := by
  have hCN : kindMatch lex prev .ContextName ('\\' :: ctxWord) = none :=
    matchBoundedVocab_none_of_head_not_alpha noWordAfter lex.contexts
      hwf.1 '\\' rfl prev ctxWord
  have hGN : kindMatch lex prev .GrobName ('\\' :: ctxWord) = none :=
    matchBoundedVocab_none_of_head_not_alpha noWordAfter lex.grobs
      hwf.2.1 '\\' rfl prev ctxWord
  have hART : kindMatch lex prev .Articulation ('\\' :: ctxWord) = none := by
    show matchBackslashVocab noAlphaAfter lex.articulationWords
      ('\\' :: ctxWord) = none
    show (matchWordAlt noAlphaAfter lex.articulationWords ctxWord).map
      (· + 1) = none
    rw [matchWordAlt_ctxWord_none lex.articulationWords hart]
    rfl
  have hfindL : findMatch lex prev .LilyPondParserLayout ('\\' :: ctxWord) =
      some (.LayoutContext, 8) := rfl
  have hfindM : findMatch lex prev .LilyPondParserMidi ('\\' :: ctxWord) =
      some (.LayoutContext, 8) := rfl
  have hfindG : findMatch lex prev .LilyPondParserGlobal ('\\' :: ctxWord) =
      some (.Context, 8) := rfl
  have hfindMu : findMatch lex prev .LilyPondParserMusic ('\\' :: ctxWord) =
      some (.Context, 8) := by
    show tryItems lex prev
      ([.Space, .BlockCommentStart, .LineComment, .SchemeStart,
        .StringQuotedStart, .Dynamic, .Skip, .Rest, .Note, .Fraction,
        .DurationStart, .VoiceSeparator, .SequentialStart, .SequentialEnd,
        .SimultaneousStart, .SimultaneousEnd, .ChordStart] ++
       (.ContextName :: .GrobName ::
        ([.SlurStart, .SlurEnd, .PhrasingSlurStart, .PhrasingSlurEnd, .Tie,
          .BeamStart, .BeamEnd, .LigatureStart, .LigatureEnd, .Direction] ++
         (.Articulation ::
          [.Repeat, .Override, .Revert, .Set, .Unset, .New, .Context, .With,
           .Clef, .ChordMode, .DrumMode, .FigureMode, .LyricMode, .NoteMode,
           .Markup, .MarkupLines, .Keyword, .Command, .UserCommand]))))
      ('\\' :: ctxWord) = some (.Context, 8)
    rw [tryItems_append_none lex prev ('\\' :: ctxWord)
      [.Space, .BlockCommentStart, .LineComment, .SchemeStart,
        .StringQuotedStart, .Dynamic, .Skip, .Rest, .Note, .Fraction,
        .DurationStart, .VoiceSeparator, .SequentialStart, .SequentialEnd,
        .SimultaneousStart, .SimultaneousEnd, .ChordStart] _ rfl]
    rw [tryItems_cons_none hCN, tryItems_cons_none hGN]
    rw [tryItems_append_none lex prev ('\\' :: ctxWord)
      [.SlurStart, .SlurEnd, .PhrasingSlurStart, .PhrasingSlurEnd, .Tie,
        .BeamStart, .BeamEnd, .LigatureStart, .LigatureEnd, .Direction]
      _ rfl]
    rw [tryItems_cons_none hART]
    rfl
  refine ⟨hfindL, hfindM, hfindG, hfindMu, ?_, ?_, ?_, ?_, rfl⟩
  · unfold stepOnce
    simp only [hfindL]
    rfl
  · unfold stepOnce
    simp only [hfindM]
    rfl
  · unfold stepOnce
    simp only [hfindG]
    rfl
  · unfold stepOnce
    simp only [hfindMu]
    rfl

/-- C10 witness: the dispatch at the concrete input in concrete layout and
music stacks with the empty lexicon. -/
theorem claim10_context_dispatch_witness :
    stepOnce emptyLexicon none
        [⟨.LilyPondParserLayout, 0⟩, ⟨.LilyPondParserGlobal, 0⟩]
        ('\\' :: ctxWord) =
      .emit .LayoutContext ('\\' :: ctxWord)
        [⟨.LilyPondParserExpectContext, 0⟩, ⟨.LilyPondParserLayout, 0⟩,
         ⟨.LilyPondParserGlobal, 0⟩] (some 't') [] ∧
    stepOnce emptyLexicon none
        [⟨.LilyPondParserMusic, 0⟩, ⟨.LilyPondParserGlobal, 0⟩]
        ('\\' :: ctxWord) =
      .emit .Context ('\\' :: ctxWord)
        [⟨.LilyPondParserNewContext, 0⟩, ⟨.LilyPondParserMusic, 0⟩,
         ⟨.LilyPondParserGlobal, 0⟩] (some 't') [] := by
  have h := claim10_context_dispatch emptyLexicon none 0
    [⟨.LilyPondParserGlobal, 0⟩] (by decide) (by decide)
  exact ⟨h.2.2.2.2.1, h.2.2.2.2.2.2.2.1⟩

end LyLex
